import Mathlib

/-!
# The ncmpcpp browser screen (src/browser.cpp)

A shallow embedding of the browsing logic of `Browser`: building the listing of a
directory (`GetDirectory`, `GetLocalDirectory`), navigation (`EnterPressed`,
`ChangeBrowseMode`, `LocateSong`, `SwitchTo`), queue highlighting (`UpdateItemList`),
expansion of the selection (`getSelectedSongs`) and deletion (`deleteItem`,
`ClearDirectory`).

Strings are lists of characters.  Everything browser.cpp reaches through another
translation unit (the MPD connection, the playlist screen, the configuration, the
charset helpers, the comparator, the C library) is a field of `Env`; the mutable
members of `Browser` and the globals it writes are the fields of `Browser`.
-/

namespace Ncmpcpp

/-- A `std::string`, as the sequence of its characters. -/
abbrev Str := List Char

/-! ## Data model -/

/-- What browser.cpp reads of an `MPD::Song`: `getURI()`, `getDirectory()`,
`getHash()` and `isFromDatabase()`. -/
structure Song where
  uri : Str
  directory : Str
  hash : Nat
  fromDatabase : Bool
deriving DecidableEq, Repr

/-- The enumeration `MPD::ItemType`. -/
inductive ItemType where
  | itDirectory
  | itSong
  | itPlaylist
deriving DecidableEq, Repr

/-- Modelled from the spec: `MPD::Item` is declared outside browser.cpp; the spec
describes it as a tagged union in which `song` is present exactly for a song and
`name` is the path of a directory or a playlist. -/
inductive Item where
  | directory (name : Str)
  | song (song : Song)
  | playlist (name : Str)
deriving DecidableEq, Repr

/-- The member `item.type`. -/
def Item.type : Item → ItemType
  | .directory _ => .itDirectory
  | .song _ => .itSong
  | .playlist _ => .itPlaylist

/-- The member `item.name` (empty for a song, whose record is in `song`). -/
def Item.name : Item → Str
  | .directory n => n
  | .song _ => []
  | .playlist n => n

/-- Modelled from the spec: a row of the list view (`NC::Menu<MPD::Item>::Item`),
the item with its bold (highlighted) and selected bits. -/
structure Row where
  value : Item
  isBold : Bool
  isSelected : Bool
deriving DecidableEq, Repr

/-- Modelled from the spec: the list view `w`, an indexable sequence of rows with a
cursor (`choice()`); the filter mask and the geometry are left out. -/
structure Menu where
  rows : List Row
  choice : Nat
deriving DecidableEq, Repr

/-- Modelled from the spec: `clear()` drops every row. -/
def Menu.clear (w : Menu) : Menu := { w with rows := [] }

/-- Modelled from the spec: `addItem(item, is_bold)` appends a row, unselected. -/
def Menu.addItem (w : Menu) (item : Item) (is_bold : Bool) : Menu :=
  { w with rows := w.rows ++ [⟨item, is_bold, false⟩] }

/-- Modelled from the spec: `reset()` sends the cursor back to the first row. -/
def Menu.reset (w : Menu) : Menu := { w with choice := 0 }

/-- Modelled from the spec: `highlight(pos)` moves the cursor to `pos`. -/
def Menu.highlight (w : Menu) (pos : Nat) : Menu := { w with choice := pos }

/-- Modelled from the spec: `size()`. -/
def Menu.size (w : Menu) : Nat := w.rows.length

/-- Modelled from the spec: `empty()`. -/
def Menu.empty (w : Menu) : Bool := w.rows.isEmpty

/-- Modelled from the spec: `current()`, the row under the cursor; `none` stands for
a cursor outside the rows, where the C++ call has no defined result. -/
def Menu.current (w : Menu) : Option Row := w.rows.get? w.choice

/-- The values of `Config.browser_sort_mode` that browser.cpp names, and the others. -/
inductive SortMode where
  | smName
  | smMTime
  | other (n : Nat)
deriving DecidableEq, Repr

/-- What the directory calls hand to a walk: the entries of an opened directory in
the order `readdir` returns them.  `file` is an entry for which the walk's own
`stat`/`lstat` call reports no directory, `dir` one for which it reports a directory,
together with the entries `opendir` yields for the path the walk builds for it.  A
directory that cannot be opened is the empty stream: both walks return at once on a
null `DIR*`, which is what they do after reading no entry. -/
inductive DirStream where
  | nil
  | file (d_name : Str) (rest : DirStream)
  | dir (d_name : Str) (sub : DirStream) (rest : DirStream)
deriving DecidableEq, Repr

/-- The log of `remove` calls made so far: path and whether the call returned 0. -/
abbrev RemoveLog := List (Str × Bool)

/-- The comparator requirement of `std::sort`: a strict weak ordering. -/
structure StrictWeakOrder (lt : Item → Item → Bool) : Prop where
  asymm : ∀ a b, lt a b = true → lt b a = false
  negTrans : ∀ a b c, lt a b = false → lt b c = false → lt a c = false

/-- The C++ library function `std::sort`, by its contract: for a comparator that is a
strict weak ordering the result is a rearrangement of the range in which no element
is less than an earlier one.  The order of equivalent elements is left open. -/
structure StdSort where
  sort : (Item → Item → Bool) → List Item → List Item
  perm : ∀ lt l, StrictWeakOrder lt → (sort lt l).Perm l
  sorted : ∀ lt l, StrictWeakOrder lt → (sort lt l).Pairwise (fun a b => lt b a = false)

/-- Everything browser.cpp consumes from outside: the charset helpers, the MPD
connection `Mpd`, the playlist screen `myPlaylist`, `Config`, the helpers of
helpers.h and comparators.h, and the C library. -/
structure Env where
  /-- The charset helper `locale_to_utf` (charset.h). -/
  locale_to_utf : Str → Str
  /-- The charset helper `utf_to_locale` (charset.h). -/
  utf_to_locale : Str → Str
  /-- The call `Mpd.GetDirectory(dir)`. -/
  GetDirectory : Str → List Item
  /-- The call `Mpd.GetDirectoryRecursive(dir)`. -/
  GetDirectoryRecursive : Str → List Song
  /-- The call `Mpd.GetPlaylistContent(name)`. -/
  GetPlaylistContent : Str → List Song
  /-- The call `Mpd.LoadPlaylist(name)`. -/
  LoadPlaylist : Str → Bool
  /-- The call `Mpd.DeletePlaylist(name)`. -/
  DeletePlaylist : Str → Bool
  /-- The call `Mpd.GetHostname()`. -/
  GetHostname : Str
  /-- The songs of the active queue, `myPlaylist->Items`. -/
  playlistItems : List Song
  /-- The call `myPlaylist->Add(song, in_playlist, play)`. -/
  playlistAdd : Song → Bool → Bool → Bool
  /-- The call `Config.GetHomeDirectory()`. -/
  GetHomeDirectory : Str
  /-- The setting `Config.local_browser_show_hidden_files`. -/
  local_browser_show_hidden_files : Bool
  /-- The setting `Config.mpd_music_dir`. -/
  mpd_music_dir : Str
  /-- The extensions `Mpd.GetSupportedExtensions` filled `SupportedExtensions` with. -/
  SupportedExtensions : List Str
  /-- The helper `lowercase` (helpers.h). -/
  lowercase : Str → Str
  /-- The comparator `CaseInsensitiveSorting()` (comparators.h), which reads
  `Config.browser_sort_mode`. -/
  CaseInsensitiveSorting : SortMode → Item → Item → Bool
  /-- The library function `std::sort`. -/
  stdsort : StdSort
  /-- The song `MPD::MutableSong(mpd_song_begin(&file_pair))` built for a local path. -/
  mpd_song_begin : Str → Song
  /-- The call `TagEditor::ReadTags(song)`. -/
  ReadTags : Song → Song
  /-- The call `opendir(path)` with the entries read from it; `none` is a null `DIR*`. -/
  opendir : Str → Option DirStream
  /-- The call `remove(path) == 0`, which may depend on the removals made before. -/
  remove : RemoveLog → Str → Bool

/-- The members of `Browser` and the globals browser.cpp writes. -/
structure Browser where
  itsBrowseLocally : Bool
  itsBrowsedDir : Str
  itsScrollBeginning : Nat
  w : Menu
  isInitialized : Bool
  /-- Whether `Global::myScreen == this`. -/
  myScreenIsThis : Bool
  RedrawHeader : Bool
  /-- The global `Config.browser_sort_mode`. -/
  browser_sort_mode : SortMode
deriving DecidableEq, Repr

/-- The accessor `isLocal()` of browser.h. -/
def Browser.isLocal (b : Browser) : Bool := b.itsBrowseLocally

/-- The accessor `CurrentDir()` of browser.h. -/
def Browser.CurrentDir (b : Browser) : Str := b.itsBrowsedDir

/-- The state the constructor leaves: the database is browsed, at "/". -/
def Browser.init : Browser :=
  { itsBrowseLocally := false, itsBrowsedDir := ['/'], itsScrollBeginning := 0,
    w := ⟨[], 0⟩, isInitialized := false, myScreenIsThis := false,
    RedrawHeader := false, browser_sort_mode := .smName }

/-! ## String helpers -/

/-- The call `s.rfind(c)` for a one-character needle: the index of the last
occurrence, `none` for `npos`. -/
def rfind : Str → Char → Option Nat
  | [], _ => none
  | x :: xs, c =>
    match rfind xs c with
    | some i => some (i + 1)
    | none => if x = c then some 0 else none

/-- The test of both directory walks for the entries "." and "..":
`d_name[0] == '.' && (d_name[1] == '\0' || (d_name[1] == '.' && d_name[2] == '\0'))`. -/
def isDotOrDotDot (d_name : Str) : Bool :=
  match d_name with
  | ['.'] => true
  | ['.', '.'] => true
  | _ => false

/-- The static `Browser::isParentDirectory` of browser.h, the test `deleteItem`
spells out: a directory named "..". -/
def isParentDirectory (item : Item) : Bool :=
  item.type = .itDirectory && item.name = ['.', '.']

/-- The function `hasSupportedExtension` of browser.cpp. -/
def hasSupportedExtension (env : Env) (file : Str) : Bool :=
  match rfind file '.' with
  | none => false
  | some last_dot =>
    let ext := env.lowercase (file.drop (last_dot + 1))
    decide (ext ∈ env.SupportedExtensions)

/-! ## Building the listing -/

/-- The statement `std::sort(v.begin()+old_size, v.end(), CaseInsensitiveSorting())`. -/
def sortFrom (env : Env) (mode : SortMode) (v : List Item) (old_size : Nat) : List Item :=
  v.take old_size ++ env.stdsort.sort (env.CaseInsensitiveSorting mode) (v.drop old_size)

/-- The path `GetLocalDirectory` builds for the entry `d_name`. -/
def localFullPath (itsBrowsedDir directory d_name : Str) : Str :=
  let full_path := if directory.isEmpty then itsBrowsedDir else directory
  let full_path := if itsBrowsedDir ≠ ['/'] then full_path ++ ['/'] else full_path
  full_path ++ d_name

/-- The `while ((file = readdir(dir)))` loop of `Browser::GetLocalDirectory` over the
entries still to be read, on the vector `v` and the local `old_size`; the recursive
call on a sub-directory is the loop on its entries followed by the sort on exit.
`ReadTags` is the call of a build with TagLib. -/
def GetLocalDirectory_readdir (env : Env) (mode : SortMode) (itsBrowsedDir : Str) :
    Str → Bool → DirStream → List Item → Nat → List Item × Nat
  | _, _, .nil, v, old_size => (v, old_size)
  | directory, recursively, .file d_name rest, v, old_size =>
    if isDotOrDotDot d_name then
      GetLocalDirectory_readdir env mode itsBrowsedDir directory recursively rest v old_size
    else if !env.local_browser_show_hidden_files && d_name.head? = some '.' then
      GetLocalDirectory_readdir env mode itsBrowsedDir directory recursively rest v old_size
    else
      let full_path := localFullPath itsBrowsedDir directory d_name
      if hasSupportedExtension env d_name then
        let s := env.mpd_song_begin full_path
        let s := if !recursively then env.ReadTags s else s
        GetLocalDirectory_readdir env mode itsBrowsedDir directory recursively rest
          (v ++ [Item.song s]) old_size
      else
        GetLocalDirectory_readdir env mode itsBrowsedDir directory recursively rest v old_size
  | directory, recursively, .dir d_name sub rest, v, old_size =>
    if isDotOrDotDot d_name then
      GetLocalDirectory_readdir env mode itsBrowsedDir directory recursively rest v old_size
    else if !env.local_browser_show_hidden_files && d_name.head? = some '.' then
      GetLocalDirectory_readdir env mode itsBrowsedDir directory recursively rest v old_size
    else
      let full_path := localFullPath itsBrowsedDir directory d_name
      if recursively then
        let r := GetLocalDirectory_readdir env mode itsBrowsedDir full_path true sub v v.length
        let v1 := sortFrom env mode r.1 r.2
        GetLocalDirectory_readdir env mode itsBrowsedDir directory recursively rest v1 v1.length
      else
        GetLocalDirectory_readdir env mode itsBrowsedDir directory recursively rest
          (v ++ [Item.directory full_path]) old_size

/-- The body of `Browser::GetLocalDirectory` once `opendir` has returned the stream
`dir`: the loop, then the sort of what lies behind `old_size`. -/
def GetLocalDirectory_opened (env : Env) (mode : SortMode) (itsBrowsedDir : Str)
    (v : List Item) (directory : Str) (recursively : Bool) (dir : DirStream) : List Item :=
  let r := GetLocalDirectory_readdir env mode itsBrowsedDir directory recursively dir v v.length
  sortFrom env mode r.1 r.2

/-- The method `Browser::GetLocalDirectory(v, directory, recursively)`; the result is
the vector `v` after the call. -/
def GetLocalDirectory (env : Env) (b : Browser) (v : List Item) (directory : Str)
    (recursively : Bool) : List Item :=
  match env.opendir (if directory.isEmpty then b.itsBrowsedDir else directory) with
  | none => v
  | some dir =>
    GetLocalDirectory_opened env b.browser_sort_mode b.itsBrowsedDir v directory recursively dir

/-- The loop of `Browser::GetDirectory` over `myPlaylist->Items` that decides whether
a song is drawn bold. -/
def inPlaylist (env : Env) (s : Song) : Bool :=
  env.playlistItems.any (fun p => p.hash = s.hash)

/-- The `for` loop of `Browser::GetDirectory` over the fetched list, on the menu and
the local `highlightme`. -/
def GetDirectory_addItems (env : Env) (subdir : Str) : List Item → Menu → Int → Menu × Int
  | [], w, highlightme => (w, highlightme)
  | .playlist name :: rest, w, highlightme =>
    GetDirectory_addItems env subdir rest
      (w.addItem (.playlist (env.utf_to_locale name)) false) highlightme
  | .directory name :: rest, w, highlightme =>
    let name := env.utf_to_locale name
    let highlightme := if name = subdir then (w.size : Int) else highlightme
    GetDirectory_addItems env subdir rest (w.addItem (.directory name) false) highlightme
  | .song s :: rest, w, highlightme =>
    GetDirectory_addItems env subdir rest (w.addItem (.song s) (inPlaylist env s)) highlightme

/-- The first statement of `Browser::GetDirectory`: an empty `dir` becomes "/". -/
def normalizeDir (dir : Str) : Str := if dir.isEmpty then ['/'] else dir

/-- The list `Browser::GetDirectory` fetches from the active backend:
`GetLocalDirectory(list)` in local mode, `Mpd.GetDirectory(dir)` otherwise. -/
def GetDirectory_fetch (env : Env) (b : Browser) (dir : Str) : List Item :=
  if b.isLocal then GetLocalDirectory env b [] [] false else env.GetDirectory dir

/-- The method `Browser::GetDirectory(dir, subdir)`. -/
def GetDirectory (env : Env) (b : Browser) (dir subdir : Str) : Browser :=
  let dir := normalizeDir dir
  let w := if b.itsBrowsedDir ≠ dir then b.w.reset else b.w
  let b := { b with itsScrollBeginning := 0, w := w, itsBrowsedDir := dir }
  let dir := env.locale_to_utf dir
  let w := b.w.clear
  let w := if dir ≠ ['/'] then w.addItem (.directory ['.', '.']) false else w
  let list := GetDirectory_fetch env b dir
  let list :=
    if !b.isLocal then env.stdsort.sort (env.CaseInsensitiveSorting b.browser_sort_mode) list
    else list
  let r := GetDirectory_addItems env subdir list w (-1)
  let w := if r.2 ≥ 0 then r.1.highlight r.2.toNat else r.1
  { b with w := w }

/-- The method `Browser::UpdateItemList`; `checkForSong` of the playlist screen is
the membership test on hashes the spec calls `containsHash`. -/
def UpdateItemList (env : Env) (b : Browser) : Browser :=
  { b with w := { b.w with rows := b.w.rows.map (fun r =>
      match r.value with
      | .song s => { r with isBold := inPlaylist env s }
      | _ => r) } }

/-! ## Navigation -/

/-- The method `Browser::ChangeBrowseMode`. -/
def ChangeBrowseMode (env : Env) (b : Browser) : Browser :=
  if env.GetHostname.head? ≠ some '/' then b
  else
    let itsBrowseLocally := !b.itsBrowseLocally
    let itsBrowsedDir := if itsBrowseLocally then env.GetHomeDirectory else ['/']
    let itsBrowsedDir :=
      if itsBrowseLocally && itsBrowsedDir.getLast? = some '/' then itsBrowsedDir.dropLast
      else itsBrowsedDir
    let b := { b with itsBrowseLocally := itsBrowseLocally, itsBrowsedDir := itsBrowsedDir,
                      w := b.w.reset }
    let b := GetDirectory env b b.itsBrowsedDir []
    { b with RedrawHeader := true }

/-- The method `Browser::Init`, as far as the browsing state goes: a fresh, empty
list view. -/
def Init (b : Browser) : Browser :=
  { b with w := ⟨[], 0⟩, isInitialized := true }

/-- The method `Browser::SwitchTo`; resizing and the locked screen only concern the
window geometry and are left out. -/
def SwitchTo (env : Env) (b : Browser) : Browser :=
  let b := if b.myScreenIsThis then ChangeBrowseMode env b else b
  let b := if !b.isInitialized then Init b else b
  let b :=
    if b.isLocal && b.browser_sort_mode = .smMTime then { b with browser_sort_mode := .smName }
    else b
  let b := if b.w.empty then GetDirectory env b b.itsBrowsedDir [] else UpdateItemList env b
  { b with myScreenIsThis := true, RedrawHeader := true }

/-- The method `Browser::EnterPressed`. -/
def EnterPressed (env : Env) (b : Browser) : Browser :=
  if b.w.empty then b
  else
    match b.w.current with
    | none => b
    | some row =>
      match row.value with
      | .directory name =>
        let b :=
          if isParentDirectory row.value then
            match rfind b.itsBrowsedDir '/' with
            | some slash => GetDirectory env b (b.itsBrowsedDir.take slash) b.itsBrowsedDir
            | none => GetDirectory env b ['/'] b.itsBrowsedDir
          else GetDirectory env b name b.itsBrowsedDir
        { b with RedrawHeader := true }
      | .song s =>
        let i := b.w.choice
        let res := env.playlistAdd s row.isBold true
        { b with w := { b.w with rows := b.w.rows.set i { row with isBold := res } } }
      | .playlist _ => b

/-- The search of `Browser::LocateSong` for the first song row with the hash of `s`. -/
def locateRow (s : Song) (rows : List Row) : Option Nat :=
  rows.findIdx? (fun r =>
    match r.value with
    | .song t => s.hash = t.hash
    | _ => false)

/-- The closing loop of `Browser::LocateSong`: the cursor goes to the first song row
with the hash of `s`, if there is one. -/
def LocateSong_highlight (s : Song) (b : Browser) : Browser :=
  match locateRow s b.w.rows with
  | some i => { b with w := b.w.highlight i }
  | none => b

/-- The method `Browser::LocateSong`. -/
def LocateSong (env : Env) (b : Browser) (s : Song) : Browser :=
  if s.directory.isEmpty then b
  else
    let b := { b with itsBrowseLocally := !s.fromDatabase }
    let b := if !b.myScreenIsThis then SwitchTo env b else b
    let b := if b.itsBrowsedDir ≠ s.directory then GetDirectory env b s.directory [] else b
    LocateSong_highlight s b

/-! ## Expanding the selection -/

/-- The songs `getSelectedSongs` copies out of a recursive local listing, which holds
song items only. -/
def songsOf (list : List Item) : List Song :=
  list.filterMap (fun it =>
    match it with
    | .song s => some s
    | _ => none)

/-- The lambda `item_handler` of `Browser::getSelectedSongs`, on the vector `result`. -/
def item_handler (env : Env) (b : Browser) (result : List Song) (item : Item) : List Song :=
  match item with
  | .directory name =>
    if b.isLocal then result ++ songsOf (GetLocalDirectory env b [] name true)
    else result ++ env.GetDirectoryRecursive name
  | .song s => result ++ [s]
  | .playlist name => result ++ env.GetPlaylistContent name

/-- The `for` loop of `Browser::getSelectedSongs` over the rows. -/
def getSelectedSongs_rows (env : Env) (b : Browser) : List Row → List Song → List Song
  | [], result => result
  | r :: rest, result =>
    if r.isSelected then getSelectedSongs_rows env b rest (item_handler env b result r.value)
    else getSelectedSongs_rows env b rest result

/-- The method `Browser::getSelectedSongs`. -/
def getSelectedSongs (env : Env) (b : Browser) : List Song :=
  let result := getSelectedSongs_rows env b b.w.rows []
  if result.isEmpty && !b.w.empty then
    match b.w.current with
    | some r => item_handler env b result r.value
    | none => result
  else result

/-! ## Deleting -/

/-- The first two statements on `full_path` in `Browser::ClearDirectory`: `path`,
closed by a '/' unless its last character is one. -/
def clearBase (path : Str) : Str :=
  if path.getLast? ≠ some '/' then path ++ ['/'] else path

/-- The path `ClearDirectory` builds for the entry `d_name` of the directory `path`. -/
def clearFullPath (path d_name : Str) : Str := clearBase path ++ d_name

/-- The `while ((file = readdir(dir)))` loop of `Browser::ClearDirectory` over the
entries still to be read, on the log of `remove` calls. -/
def ClearDirectory_readdir (env : Env) (path : Str) : DirStream → RemoveLog → RemoveLog
  | .nil, log => log
  | .file d_name rest, log =>
    if isDotOrDotDot d_name then ClearDirectory_readdir env path rest log
    else
      let full_path := clearFullPath path d_name
      ClearDirectory_readdir env path rest (log ++ [(full_path, env.remove log full_path)])
  | .dir d_name sub rest, log =>
    if isDotOrDotDot d_name then ClearDirectory_readdir env path rest log
    else
      let full_path := clearFullPath path d_name
      let log := ClearDirectory_readdir env full_path sub log
      ClearDirectory_readdir env path rest (log ++ [(full_path, env.remove log full_path)])

/-- The method `Browser::ClearDirectory(path)`. -/
def ClearDirectory (env : Env) (path : Str) (log : RemoveLog) : RemoveLog :=
  match env.opendir path with
  | none => log
  | some dir => ClearDirectory_readdir env path dir log

/-- The path `Browser::deleteItem` removes for `item`. -/
def deletePath (env : Env) (b : Browser) (item : Item) : Str :=
  (if !b.isLocal then env.mpd_music_dir else []) ++
    (match item with
     | .song s => s.uri
     | _ => item.name)

/-- The method `Browser::deleteItem(item)`: the value returned and the log of
`remove` calls after it. -/
def deleteItem (env : Env) (b : Browser) (item : Item) (log : RemoveLog) : Bool × RemoveLog :=
  if item.type = .itDirectory && item.name = ['.', '.'] then (false, log)
  else if !b.isLocal && item.type = .itPlaylist && b.CurrentDir = ['/'] then
    (env.DeletePlaylist (env.locale_to_utf item.name), log)
  else
    let path := deletePath env b item
    let log := if item.type = .itDirectory then ClearDirectory env path log else log
    (env.remove log path, log ++ [(path, env.remove log path)])

/-! ## Concrete comparator and sorts -/

/-- A case-insensitive lexicographic comparison of two strings. -/
def ciLess : Str → Str → Bool
  | [], [] => false
  | [], _ :: _ => true
  | _ :: _, [] => false
  | a :: as, b :: bs =>
    if a.toLower.toNat < b.toLower.toNat then true
    else if b.toLower.toNat < a.toLower.toNat then false
    else ciLess as bs

/-- The string an item is listed under: the path of a directory or a playlist, the
URI of a song. -/
def sortKey : Item → Str
  | .directory n => n
  | .song s => s.uri
  | .playlist n => n

/-- A comparator in the role of `CaseInsensitiveSorting`: case-insensitive order of
the listed strings, whatever the sort mode. -/
def ciItemLess (_mode : SortMode) (a b : Item) : Bool := ciLess (sortKey a) (sortKey b)

/-- The order in which an insertion sort keeps two elements: `b` is not less than `a`. -/
def notAfter (lt : Item → Item → Bool) (a b : Item) : Prop := lt b a = false

instance notAfter.decidable (lt : Item → Item → Bool) : DecidableRel (notAfter lt) :=
  fun a b => inferInstanceAs (Decidable (lt b a = false))

/-- Insertion sort, which keeps equivalent elements in their order. -/
def insertionSortBy (lt : Item → Item → Bool) (l : List Item) : List Item :=
  List.insertionSort (notAfter lt) l

/-- A conforming `std::sort` that keeps equivalent elements in their order. -/
def stableStdSort : StdSort where
  sort := insertionSortBy
  perm := fun lt l _ => List.perm_insertionSort (notAfter lt) l
  sorted := fun lt l h => by
    haveI : IsTotal Item (notAfter lt) :=
      ⟨fun a b => by
        unfold notAfter
        cases hba : lt b a
        · exact Or.inl rfl
        · exact Or.inr (h.asymm b a hba)⟩
    haveI : IsTrans Item (notAfter lt) := ⟨fun a b c hab hbc => h.negTrans c b a hbc hab⟩
    exact List.sorted_insertionSort (notAfter lt) l

/-! ## The library sort as the GNU C++ library runs it

`std::sort` of libstdc++ (bits/stl_algo.h, bits/stl_heap.h), on a vector held as a
list and iterators held as positions.  The loops the library leaves unguarded get a
bound on their steps; a position outside the vector compares as not less. -/

/-- The comparison `comp(i, j)` of the elements at two positions. -/
def compAt (lt : Item → Item → Bool) (a : List Item) (i j : Nat) : Bool :=
  match a.get? i, a.get? j with
  | some x, some y => lt x y
  | _, _ => false

/-- The call `std::iter_swap(i, j)`. -/
def iterSwap (a : List Item) (i j : Nat) : List Item :=
  match a.get? i, a.get? j with
  | some x, some y => (a.set i y).set j x
  | _, _ => a

/-- The function `std::__lg`: the binary logarithm, rounded down. -/
def lg : Nat → Nat → Nat
  | 0, _ => 0
  | fuel + 1, n => if n ≤ 1 then 0 else lg fuel (n / 2) + 1

/-- The function `std::__move_median_to_first(result, a, b, c, comp)`. -/
def moveMedianToFirst (lt : Item → Item → Bool) (v : List Item) (result a b c : Nat) :
    List Item :=
  if compAt lt v a b then
    if compAt lt v b c then iterSwap v result b
    else if compAt lt v a c then iterSwap v result c
    else iterSwap v result a
  else if compAt lt v a c then iterSwap v result a
  else if compAt lt v b c then iterSwap v result c
  else iterSwap v result b

/-- The loop `while (comp(first, pivot)) ++first` of `std::__unguarded_partition`. -/
def scanUp (lt : Item → Item → Bool) (v : List Item) (pivot : Nat) : Nat → Nat → Nat
  | 0, first => first
  | fuel + 1, first =>
    if compAt lt v first pivot then scanUp lt v pivot fuel (first + 1) else first

/-- The loop `while (comp(pivot, last)) --last` of `std::__unguarded_partition`. -/
def scanDown (lt : Item → Item → Bool) (v : List Item) (pivot : Nat) : Nat → Nat → Nat
  | 0, last => last
  | fuel + 1, last =>
    if compAt lt v pivot last then scanDown lt v pivot fuel (last - 1) else last

/-- The function `std::__unguarded_partition(first, last, pivot, comp)`: the vector
after it and the position returned. -/
def unguardedPartition (lt : Item → Item → Bool) (pivot : Nat) :
    Nat → List Item → Nat → Nat → List Item × Nat
  | 0, v, first, _ => (v, first)
  | fuel + 1, v, first, last =>
    let first := scanUp lt v pivot v.length first
    let last := scanDown lt v pivot v.length (last - 1)
    if first < last then unguardedPartition lt pivot fuel (iterSwap v first last) (first + 1) last
    else (v, first)

/-- The function `std::__unguarded_partition_pivot(first, last, comp)`. -/
def unguardedPartitionPivot (lt : Item → Item → Bool) (v : List Item) (first last : Nat) :
    List Item × Nat :=
  let mid := first + (last - first) / 2
  let v := moveMedianToFirst lt v first (first + 1) mid (last - 1)
  unguardedPartition lt first v.length v (first + 1) last

/-- The function `std::__push_heap(first, holeIndex, topIndex, value, comp)`. -/
def pushHeap (lt : Item → Item → Bool) (first topIndex : Nat) (value : Item) :
    Nat → List Item → Nat → List Item
  | 0, v, holeIndex => v.set (first + holeIndex) value
  | fuel + 1, v, holeIndex =>
    let parent := (holeIndex - 1) / 2
    match v.get? (first + parent) with
    | some x =>
      if holeIndex > topIndex && lt x value then
        pushHeap lt first topIndex value fuel (v.set (first + holeIndex) x) parent
      else v.set (first + holeIndex) value
    | none => v.set (first + holeIndex) value

/-- The `while` loop of `std::__adjust_heap`: the vector, `holeIndex` and
`secondChild` after it. -/
def adjustHeapLoop (lt : Item → Item → Bool) (first len : Nat) :
    Nat → List Item → Nat → Nat → List Item × Nat × Nat
  | 0, v, holeIndex, secondChild => (v, holeIndex, secondChild)
  | fuel + 1, v, holeIndex, secondChild =>
    if secondChild < (len - 1) / 2 then
      let secondChild := 2 * (secondChild + 1)
      let secondChild :=
        if compAt lt v (first + secondChild) (first + (secondChild - 1)) then secondChild - 1
        else secondChild
      match v.get? (first + secondChild) with
      | some x =>
        adjustHeapLoop lt first len fuel (v.set (first + holeIndex) x) secondChild secondChild
      | none => (v, holeIndex, secondChild)
    else (v, holeIndex, secondChild)

/-- The function `std::__adjust_heap(first, holeIndex, len, value, comp)`. -/
def adjustHeap (lt : Item → Item → Bool) (v : List Item) (first holeIndex len : Nat)
    (value : Item) : List Item :=
  let r := adjustHeapLoop lt first len len v holeIndex holeIndex
  let secondChild := r.2.2
  let r2 : List Item × Nat :=
    if len % 2 = 0 && secondChild = (len - 2) / 2 then
      let secondChild := 2 * (secondChild + 1)
      match r.1.get? (first + (secondChild - 1)) with
      | some x => (r.1.set (first + r.2.1) x, secondChild - 1)
      | none => (r.1, r.2.1)
    else (r.1, r.2.1)
  pushHeap lt first holeIndex value len r2.1 r2.2

/-- The function `std::__pop_heap(first, last, result, comp)`. -/
def popHeap (lt : Item → Item → Bool) (v : List Item) (first last result : Nat) : List Item :=
  match v.get? result, v.get? first with
  | some value, some top => adjustHeap lt (v.set result top) first 0 (last - first) value
  | _, _ => v

/-- The `while (true)` loop of `std::__make_heap`, from `parent` downwards. -/
def makeHeapLoop (lt : Item → Item → Bool) (first len : Nat) : Nat → List Item → List Item
  | 0, v =>
    match v.get? first with
    | some value => adjustHeap lt v first 0 len value
    | none => v
  | parent + 1, v =>
    match v.get? (first + (parent + 1)) with
    | some value => makeHeapLoop lt first len parent (adjustHeap lt v first (parent + 1) len value)
    | none => v

/-- The function `std::__make_heap(first, last, comp)`. -/
def makeHeap (lt : Item → Item → Bool) (v : List Item) (first last : Nat) : List Item :=
  if last - first < 2 then v else makeHeapLoop lt first (last - first) ((last - first - 2) / 2) v

/-- The function `std::__sort_heap(first, last, comp)`. -/
def sortHeap (lt : Item → Item → Bool) (first : Nat) : Nat → List Item → Nat → List Item
  | 0, v, _ => v
  | fuel + 1, v, last =>
    if last - first > 1 then sortHeap lt first fuel (popHeap lt v first (last - 1) (last - 1)) (last - 1)
    else v

/-- The call `std::__partial_sort(first, last, last, comp)` of the sort: with the
middle at the end `std::__heap_select` is `std::__make_heap` alone. -/
def partialSort (lt : Item → Item → Bool) (v : List Item) (first last : Nat) : List Item :=
  sortHeap lt first v.length (makeHeap lt v first last) last

/-- The function `std::__introsort_loop(first, last, depth_limit, comp)`; the loop's
next round on `[first, cut)` is the second call. -/
def introsortLoop (lt : Item → Item → Bool) : Nat → List Item → Nat → Nat → Nat → List Item
  | 0, v, _, _, _ => v
  | fuel + 1, v, first, last, depth_limit =>
    if last - first > 16 then
      if depth_limit = 0 then partialSort lt v first last
      else
        let r := unguardedPartitionPivot lt v first last
        let v := introsortLoop lt fuel r.1 r.2 last (depth_limit - 1)
        introsortLoop lt fuel v first r.2 (depth_limit - 1)
    else v

/-- The function `std::__unguarded_linear_insert(last, comp)`, with `val` taken out. -/
def unguardedLinearInsert (lt : Item → Item → Bool) (val : Item) :
    Nat → List Item → Nat → List Item
  | 0, v, last => v.set last val
  | fuel + 1, v, last =>
    match last, v.get? (last - 1) with
    | next + 1, some x =>
      if lt val x then unguardedLinearInsert lt val fuel (v.set (next + 1) x) next
      else v.set (next + 1) val
    | _, _ => v.set last val

/-- One round of the `for` loop of `std::__insertion_sort(first, last, comp)`, for
the position `i`. -/
def insertionStep (lt : Item → Item → Bool) (v : List Item) (first i : Nat) : List Item :=
  match v.get? i with
  | some val =>
    if compAt lt v i first then
      v.take first ++ val :: ((v.drop first).take (i - first) ++ v.drop (i + 1))
    else unguardedLinearInsert lt val v.length v i
  | none => v

/-- The `for` loop of `std::__insertion_sort`, from the position `i` on. -/
def insertionLoop (lt : Item → Item → Bool) (first last : Nat) : Nat → List Item → Nat → List Item
  | 0, v, _ => v
  | fuel + 1, v, i =>
    if i < last then insertionLoop lt first last fuel (insertionStep lt v first i) (i + 1) else v

/-- The function `std::__insertion_sort(first, last, comp)`. -/
def insertionSort (lt : Item → Item → Bool) (v : List Item) (first last : Nat) : List Item :=
  if first = last then v else insertionLoop lt first last v.length v (first + 1)

/-- The function `std::__unguarded_insertion_sort(first, last, comp)`, from the
position `i` on. -/
def unguardedInsertionSort (lt : Item → Item → Bool) (last : Nat) :
    Nat → List Item → Nat → List Item
  | 0, v, _ => v
  | fuel + 1, v, i =>
    if i < last then
      match v.get? i with
      | some val =>
        unguardedInsertionSort lt last fuel (unguardedLinearInsert lt val v.length v i) (i + 1)
      | none => v
    else v

/-- The function `std::__final_insertion_sort(first, last, comp)`. -/
def finalInsertionSort (lt : Item → Item → Bool) (v : List Item) (first last : Nat) : List Item :=
  if last - first > 16 then
    unguardedInsertionSort lt last v.length (insertionSort lt v first (first + 16)) (first + 16)
  else insertionSort lt v first last

/-- The function `std::sort(v.begin(), v.end(), comp)` of libstdc++. -/
def gnuSort (lt : Item → Item → Bool) (v : List Item) : List Item :=
  if v.isEmpty then v
  else
    finalInsertionSort lt
      (introsortLoop lt v.length v 0 v.length (lg v.length v.length * 2)) 0 v.length

/-- Whether `r` is what the contract of `std::sort` allows for the range `v`: a
rearrangement of `v` in which no element is less than an earlier one. -/
def meetsSortContract (lt : Item → Item → Bool) (v r : List Item) : Bool :=
  decide (r.Perm v) && decide (r.Pairwise (fun a b => lt b a = false))

/-- The result of `gnuSort` wherever it meets the contract of `std::sort`, which the
library promises for every strict weak ordering; elsewhere, to keep the contract
without a proof of the algorithm, an insertion sort. -/
def gnuSortChecked (lt : Item → Item → Bool) (v : List Item) : List Item :=
  if meetsSortContract lt v (gnuSort lt v) then gnuSort lt v else insertionSortBy lt v

/-- The `std::sort` of libstdc++ as an instance of the contract. -/
def gnuStdSort : StdSort where
  sort := gnuSortChecked
  perm := fun lt v h => by
    unfold gnuSortChecked
    by_cases hc : meetsSortContract lt v (gnuSort lt v) = true
    · rw [if_pos hc]
      simp only [meetsSortContract, Bool.and_eq_true, decide_eq_true_eq] at hc
      exact hc.1
    · rw [if_neg hc]
      exact stableStdSort.perm lt v h
  sorted := fun lt v h => by
    unfold gnuSortChecked
    by_cases hc : meetsSortContract lt v (gnuSort lt v) = true
    · rw [if_pos hc]
      simp only [meetsSortContract, Bool.and_eq_true, decide_eq_true_eq] at hc
      exact hc.2
    · rw [if_neg hc]
      exact stableStdSort.sorted lt v h

/-! ## Vocabulary of the statements -/

/-- The item as `GetDirectory` stores it in a row: the name of a directory or of a
playlist has gone through `utf_to_locale`. -/
def storedItem (env : Env) : Item → Item
  | .directory name => .directory (env.utf_to_locale name)
  | .song s => .song s
  | .playlist name => .playlist (env.utf_to_locale name)

/-- The row `GetDirectory` adds for a fetched item. -/
def storedRow (env : Env) : Item → Row
  | .directory name => ⟨.directory (env.utf_to_locale name), false, false⟩
  | .song s => ⟨.song s, inPlaylist env s, false⟩
  | .playlist name => ⟨.playlist (env.utf_to_locale name), false, false⟩

/-- The list `GetDirectory` walks over: the fetched list, sorted when the database is
browsed. -/
def GetDirectory_sorted (env : Env) (b : Browser) (dir : Str) : List Item :=
  let b := { b with itsScrollBeginning := 0,
                    w := if b.itsBrowsedDir ≠ normalizeDir dir then b.w.reset else b.w,
                    itsBrowsedDir := normalizeDir dir }
  let list := GetDirectory_fetch env b (env.locale_to_utf (normalizeDir dir))
  if !b.isLocal then env.stdsort.sort (env.CaseInsensitiveSorting b.browser_sort_mode) list
  else list

/-- Two items are equivalent for a comparator when neither is less than the other:
their sort keys are equal. -/
def equivalentFor (lt : Item → Item → Bool) (a b : Item) : Bool := !lt a b && !lt b a

/-- The list `listed` is `children` sorted stably by `lt`: a rearrangement in which
no item is less than an earlier one and in which equivalent items keep the order they
have in `children`. -/
def StableSortOf (lt : Item → Item → Bool) (children listed : List Item) : Prop :=
  listed.Perm children ∧ listed.Pairwise (fun a b => lt b a = false) ∧
    ∀ a, listed.filter (equivalentFor lt a) = children.filter (equivalentFor lt a)

/-- The four operations that move the browser between directories and modes. -/
inductive Op where
  | getDirectory (dir subdir : Str)
  | enterPressed
  | changeBrowseMode
  | locateSong (s : Song)

/-- One call, in the environment it meets. -/
def Op.run (env : Env) (b : Browser) : Op → Browser
  | .getDirectory dir subdir => GetDirectory env b dir subdir
  | .enterPressed => EnterPressed env b
  | .changeBrowseMode => ChangeBrowseMode env b
  | .locateSong s => LocateSong env b s

/-- A sequence of calls from the state `b`; every call comes with the environment it
meets, so the answers of the backends may change from call to call. -/
def runOps : List (Env × Op) → Browser → Browser
  | [], b => b
  | (env, op) :: rest, b => runOps rest (op.run env b)

/-- The paths of everything below the directory `path` whose entries are `s`: every
entry other than "." and "..", each directory entry followed by what is below it. -/
def descendants (path : Str) : DirStream → List Str
  | .nil => []
  | .file d_name rest =>
    if isDotOrDotDot d_name then descendants path rest
    else clearFullPath path d_name :: descendants path rest
  | .dir d_name sub rest =>
    if isDotOrDotDot d_name then descendants path rest
    else clearFullPath path d_name ::
      (descendants (clearFullPath path d_name) sub ++ descendants path rest)

/-- The directories below the directory `path` whose entries are `s`, at any depth,
each with its path and its entries. -/
def subdirectories (path : Str) : DirStream → List (Str × DirStream)
  | .nil => []
  | .file _ rest => subdirectories path rest
  | .dir d_name sub rest =>
    if isDotOrDotDot d_name then subdirectories path rest
    else (clearFullPath path d_name, sub) ::
      (subdirectories (clearFullPath path d_name) sub ++ subdirectories path rest)

/-- The names of the entries of a directory other than "." and "..". -/
def entryNames : DirStream → List Str
  | .nil => []
  | .file d_name rest => if isDotOrDotDot d_name then entryNames rest else d_name :: entryNames rest
  | .dir d_name _ rest => if isDotOrDotDot d_name then entryNames rest else d_name :: entryNames rest

/-- A directory tree as a file system holds it: names are not empty, contain no '/',
and no two entries of one directory share a name. -/
def WellFormed : DirStream → Prop
  | .nil => True
  | .file d_name rest =>
    d_name ≠ [] ∧ '/' ∉ d_name ∧ d_name ∉ entryNames rest ∧ WellFormed rest
  | .dir d_name sub rest =>
    d_name ≠ [] ∧ '/' ∉ d_name ∧ d_name ∉ entryNames rest ∧ WellFormed sub ∧ WellFormed rest

/-- The paths in the order a walk that handles a directory after its contents visits
them. -/
def postorder (path : Str) : DirStream → List Str
  | .nil => []
  | .file d_name rest =>
    if isDotOrDotDot d_name then postorder path rest
    else clearFullPath path d_name :: postorder path rest
  | .dir d_name sub rest =>
    if isDotOrDotDot d_name then postorder path rest
    else postorder (clearFullPath path d_name) sub ++
      clearFullPath path d_name :: postorder path rest

/-! ## Sample inputs -/

/-- A song record for a local file: its path as URI, the path up to the last '/' as
directory, a hash of the path. -/
def localSong (path : Str) : Song :=
  { uri := path
    directory := path.take ((rfind path '/').getD 0)
    hash := path.foldl (fun h c => 1114112 * h + c.toNat + 1) 0
    fromDatabase := false }

/-- A sample environment: a build without charset conversion; a database with the
playlist "Top" and the directory "Music" at the root and three children in "Music",
returned unsorted; an empty file system; an empty queue; a TCP connection. -/
def sampleEnv : Env where
  locale_to_utf := id
  utf_to_locale := id
  GetDirectory := fun dir =>
    if dir = ['/'] then [.playlist "Top".toList, .directory "Music".toList]
    else if dir = "Music".toList then
      [.directory "Music/b".toList, .song ⟨"Music/x.mp3".toList, "Music".toList, 7, true⟩,
       .directory "Music/A".toList]
    else []
  GetDirectoryRecursive := fun _ => []
  GetPlaylistContent := fun _ => []
  LoadPlaylist := fun _ => true
  DeletePlaylist := fun _ => true
  GetHostname := "localhost".toList
  playlistItems := []
  playlistAdd := fun _ _ _ => true
  GetHomeDirectory := "/home/user/".toList
  local_browser_show_hidden_files := false
  mpd_music_dir := "/var/lib/mpd/music/".toList
  SupportedExtensions := ["mp3".toList, "ogg".toList]
  lowercase := fun s => s.map Char.toLower
  CaseInsensitiveSorting := ciItemLess
  stdsort := stableStdSort
  mpd_song_begin := localSong
  ReadTags := id
  opendir := fun _ => none
  remove := fun _ _ => true

/-- Twenty directories whose names differ in case only, so that their
case-insensitive keys are equal. -/
def tiedChildren : List Item :=
  ["track", "Track", "tRack", "TRack", "trAck", "TrAck", "tRAck", "TRAck", "traCk", "TraCk",
   "tRaCk", "TRaCk", "trACk", "TrACk", "tRACk", "TRACk", "tracK", "TracK", "tRacK",
   "TRacK"].map (fun s => Item.directory s.toList)

/-- The positions of `tiedChildren` in the order in which libstdc++ leaves twenty
equivalent elements: the median step swaps positions 0 and 10, the partition swaps
1 with 19, 2 with 18, up to 9 with 11. -/
def tiedOrder : List Nat :=
  [10, 19, 18, 17, 16, 15, 14, 13, 12, 11, 0, 9, 8, 7, 6, 5, 4, 3, 2, 1]

/-- The sample environment with the `std::sort` of libstdc++ and a database root
holding the twenty directories of `tiedChildren`, returned in that order. -/
def tieEnv : Env :=
  { sampleEnv with
    stdsort := gnuStdSort
    GetDirectory := fun _ => tiedChildren }

/-- A listing of the database root with two rows: the directory "empty", selected,
and a song, not selected, under the cursor. -/
def selectionState : Browser :=
  { Browser.init with
    w := ⟨[⟨.directory "empty".toList, false, true⟩,
           ⟨.song ⟨"a.mp3".toList, ['/'], 5, true⟩, false, false⟩], 1⟩ }

/-- A listing of the database root with two rows, none selected: the directory
"Music" and a song under the cursor. -/
def cursorState : Browser :=
  { Browser.init with
    w := ⟨[⟨.directory "Music".toList, false, false⟩,
           ⟨.song ⟨"a.mp3".toList, ['/'], 5, true⟩, false, false⟩], 1⟩ }

/-- The sample environment with the library sort `alg` and one local directory,
"/music/x", whose entries `readdir` returns in the order "z.mp3", "a.mp3", "sub";
"sub" is a directory without entries. -/
def walkEnv (alg : StdSort) : Env :=
  { sampleEnv with
    stdsort := alg
    opendir := fun p =>
      if p = "/music/x".toList then
        some (.file "z.mp3".toList (.file "a.mp3".toList (.dir "sub".toList .nil .nil)))
      else none }

/-- The local file system is browsed, at "/music". -/
def walkState : Browser :=
  { Browser.init with itsBrowseLocally := true, itsBrowsedDir := "/music".toList }

/-- The sample environment with one local directory, "/music/x", holding the empty
directory "sub" and the file "a.mp3", read in that order; `remove` succeeds on "sub"
only. -/
def deleteEnv : Env :=
  { sampleEnv with
    opendir := fun p =>
      if p = "/music/x".toList then some (.dir "sub".toList .nil (.file "a.mp3".toList .nil))
      else none
    remove := fun _ p => p = "/music/x/sub".toList }

/-- The sample environment reached through the local socket "/run/mpd/socket". -/
def socketEnv : Env := { sampleEnv with GetHostname := "/run/mpd/socket".toList }

/-! # Theorems -/

/-! ## C1: the parent row and the children -/

theorem storedRow_value (env : Env) (it : Item) : (storedRow env it).value = storedItem env it := by
  cases it <;> rfl

theorem addItems_rows (env : Env) (subdir : Str) (l : List Item) (w : Menu) (h : Int) :
    (GetDirectory_addItems env subdir l w h).1.rows = w.rows ++ l.map (storedRow env) := by
  induction l generalizing w h with
  | nil => simp [GetDirectory_addItems]
  | cons it rest ih =>
    cases it <;> simp [GetDirectory_addItems, ih, Menu.addItem, storedRow]

theorem GetDirectory_rows (env : Env) (b : Browser) (dir subdir : Str) :
    (GetDirectory env b dir subdir).w.rows =
      (if env.locale_to_utf (normalizeDir dir) ≠ ['/']
        then [(⟨.directory ['.', '.'], false, false⟩ : Row)] else []) ++
      (GetDirectory_sorted env b dir).map (storedRow env) := by
  unfold GetDirectory GetDirectory_sorted
  simp only []
  split_ifs <;> simp [addItems_rows, Menu.highlight, Menu.clear, Menu.addItem]

theorem GetDirectory_sorted_perm (env : Env) (b : Browser) (dir : Str)
    (hcmp : b.isLocal = false → StrictWeakOrder (env.CaseInsensitiveSorting b.browser_sort_mode)) :
    (GetDirectory_sorted env b dir).Perm
      (GetDirectory_fetch env { b with itsBrowsedDir := normalizeDir dir }
        (env.locale_to_utf (normalizeDir dir))) := by
  unfold GetDirectory_sorted GetDirectory_fetch GetLocalDirectory Browser.isLocal
  cases hl : b.itsBrowseLocally
  · simpa [hl] using env.stdsort.perm _ _ (hcmp hl)
  · simp [hl]

/-- C1. After `GetDirectory(dir, subdir)`: when the directory (an empty one read as
"/") is not "/", row 0 is the parent row (a directory named "..") and the rows after
it are the children the active backend returned; when it is "/", there is no parent
row and the rows are those children, as many as were returned.  The charset helper is
assumed not to confuse "/" with another path and, when the database is browsed, the
comparator to be a strict weak ordering, as `std::sort` requires. -/
theorem C1_parent_row_unless_root (env : Env) (b : Browser) (dir subdir : Str)
    (hroot : env.locale_to_utf (normalizeDir dir) = ['/'] ↔ normalizeDir dir = ['/'])
    (hcmp : b.isLocal = false → StrictWeakOrder (env.CaseInsensitiveSorting b.browser_sort_mode)) :
    let children := GetDirectory_fetch env { b with itsBrowsedDir := normalizeDir dir }
      (env.locale_to_utf (normalizeDir dir))
    let rows := (GetDirectory env b dir subdir).w.rows
    (normalizeDir dir ≠ ['/'] →
      ∃ rest, rows = (⟨.directory ['.', '.'], false, false⟩ : Row) :: rest ∧
        (rest.map Row.value).Perm (children.map (storedItem env))) ∧
    (normalizeDir dir = ['/'] →
      rows.length = children.length ∧
        (rows.map Row.value).Perm (children.map (storedItem env))) := by
  intro children rows
  have hrows : rows = _ := GetDirectory_rows env b dir subdir
  have hperm := GetDirectory_sorted_perm env b dir hcmp
  have hvals : ((GetDirectory_sorted env b dir).map (storedRow env)).map Row.value =
      (GetDirectory_sorted env b dir).map (storedItem env) := by
    simp [List.map_map, Function.comp_def, storedRow_value]
  constructor
  · intro hne
    have h1 : env.locale_to_utf (normalizeDir dir) ≠ ['/'] := fun h => hne (hroot.mp h)
    refine ⟨(GetDirectory_sorted env b dir).map (storedRow env), ?_, ?_⟩
    · rw [hrows, if_pos h1]; rfl
    · rw [hvals]; exact hperm.map _
  · intro heq
    have h1 : ¬ env.locale_to_utf (normalizeDir dir) ≠ ['/'] := fun h => h (hroot.mpr heq)
    rw [hrows, if_neg h1]
    refine ⟨?_, ?_⟩
    · simpa using hperm.length_eq
    · rw [List.nil_append, hvals]; exact hperm.map _

theorem ciLess_asymm : ∀ a b : Str, ciLess a b = true → ciLess b a = false
  | [], [], h => by simp [ciLess] at h
  | [], _ :: _, _ => by simp [ciLess]
  | _ :: _, [], h => by simp [ciLess] at h
  | x :: xs, y :: ys, h => by
    have ih := ciLess_asymm xs ys
    simp only [ciLess] at h ⊢
    split_ifs at h ⊢ <;> first | omega | simp_all

theorem ciLess_negTrans :
    ∀ a b c : Str, ciLess a b = false → ciLess b c = false → ciLess a c = false
  | [], [], _, _, h2 => h2
  | [], _ :: _, _, h1, _ => by simp [ciLess] at h1
  | _ :: _, _, [], _, _ => by simp [ciLess]
  | _ :: _, [], _ :: _, _, h2 => by simp [ciLess] at h2
  | x :: xs, y :: ys, z :: zs, h1, h2 => by
    have ih := ciLess_negTrans xs ys zs
    simp only [ciLess] at h1 h2 ⊢
    split_ifs at h1 h2 ⊢ <;> first | omega | simp_all

theorem ciItemLess_strictWeakOrder (mode : SortMode) : StrictWeakOrder (ciItemLess mode) :=
  ⟨fun _ _ => ciLess_asymm _ _, fun _ _ _ => ciLess_negTrans _ _ _⟩

/-- C1 at a concrete input: the database directory "Music", whose three children come
back unsorted, is listed as the parent row followed by three rows. -/
theorem C1_parent_row_unless_root_witness :
    (sampleEnv.locale_to_utf (normalizeDir "Music".toList) = ['/'] ↔
      normalizeDir "Music".toList = ['/']) ∧
    StrictWeakOrder (sampleEnv.CaseInsensitiveSorting Browser.init.browser_sort_mode) ∧
    (GetDirectory sampleEnv Browser.init "Music".toList []).w.rows.head? =
      some ⟨.directory ['.', '.'], false, false⟩ ∧
    (GetDirectory sampleEnv Browser.init "Music".toList []).w.rows.length = 4 := by
  have h := C1_parent_row_unless_root sampleEnv Browser.init "Music".toList []
    (by simp [sampleEnv]) (fun _ => ciItemLess_strictWeakOrder Browser.init.browser_sort_mode)
  obtain ⟨rest, hrows, hperm⟩ := h.1 (by decide)
  refine ⟨by simp [sampleEnv], ciItemLess_strictWeakOrder Browser.init.browser_sort_mode,
    ?_, ?_⟩
  · rw [hrows]; rfl
  · rw [hrows]
    have := hperm.length_eq
    simp only [List.length_map] at this
    simp only [List.length_cons, this]
    rfl

/-! ## C2: the database listing is sorted, not stably -/

/-- The rows libstdc++ leaves for the twenty tied directories: the children at the
positions of `tiedOrder`. -/
theorem tieEnv_rows :
    (GetDirectory tieEnv Browser.init ['/'] []).w.rows.map Row.value =
      tiedOrder.map (fun i => tiedChildren.getD i (.directory [])) := by
  decide

/-- On the twenty tied directories the sort of the environment is the algorithm of
libstdc++ itself: its result meets the contract. -/
theorem tied_sort_is_gnuSort :
    tieEnv.stdsort.sort (tieEnv.CaseInsensitiveSorting Browser.init.browser_sort_mode)
        tiedChildren =
      gnuSort (tieEnv.CaseInsensitiveSorting Browser.init.browser_sort_mode) tiedChildren := by
  decide

/-- C2 fails as stated.  The database returns twenty directories whose names differ
in case only, so that their case-insensitive keys are equal.  The `std::sort` of
libstdc++ partitions a range of more than sixteen elements and swaps equivalent
elements while doing so: the rows start with the eleventh child, followed by the
twentieth, and are not a stable sort of what the database returned. -/
theorem C2_stability_counterexample :
    ¬ StableSortOf (tieEnv.CaseInsensitiveSorting Browser.init.browser_sort_mode)
        (tieEnv.GetDirectory (tieEnv.locale_to_utf ['/']))
        ((GetDirectory tieEnv Browser.init ['/'] []).w.rows.map Row.value) := by
  intro h
  have h3 := h.2.2 (.directory "track".toList)
  rw [tieEnv_rows] at h3
  revert h3
  decide

/-- C2, amended.  When the database is browsed, the rows of `GetDirectory` other than
the parent row are the rows of a rearrangement of the children `Mpd.GetDirectory`
returned in which no item is less, by the comparator, than an earlier one.  Nothing
is said on the order of children with equal keys. -/
theorem C2_remote_rows_sorted_perm (env : Env) (b : Browser) (dir subdir : Str)
    (hremote : b.isLocal = false)
    (hcmp : StrictWeakOrder (env.CaseInsensitiveSorting b.browser_sort_mode)) :
    ∃ listed : List Item,
      listed.Perm (env.GetDirectory (env.locale_to_utf (normalizeDir dir))) ∧
      listed.Pairwise (fun x y => env.CaseInsensitiveSorting b.browser_sort_mode y x = false) ∧
      (GetDirectory env b dir subdir).w.rows =
        (if env.locale_to_utf (normalizeDir dir) ≠ ['/']
          then [(⟨.directory ['.', '.'], false, false⟩ : Row)] else []) ++
        listed.map (storedRow env) := by
  have hl : b.itsBrowseLocally = false := hremote
  refine ⟨GetDirectory_sorted env b dir, ?_, ?_, GetDirectory_rows env b dir subdir⟩
  · simpa [GetDirectory_fetch, Browser.isLocal, hl] using
      GetDirectory_sorted_perm env b dir (fun _ => hcmp)
  · simpa [GetDirectory_sorted, Browser.isLocal, hl] using env.stdsort.sorted _ _ hcmp

/-- C2, amended, at a concrete input: the three children of the database directory
"Music", returned as "Music/b", "Music/x.mp3", "Music/A", are listed behind the parent
row in sorted order. -/
theorem C2_remote_rows_sorted_perm_witness :
    Browser.init.isLocal = false ∧
    StrictWeakOrder (sampleEnv.CaseInsensitiveSorting Browser.init.browser_sort_mode) ∧
    ∃ listed : List Item,
      listed.Perm (sampleEnv.GetDirectory (sampleEnv.locale_to_utf (normalizeDir "Music".toList))) ∧
      listed.Pairwise
        (fun x y => sampleEnv.CaseInsensitiveSorting Browser.init.browser_sort_mode y x = false) ∧
      (GetDirectory sampleEnv Browser.init "Music".toList []).w.rows =
        (if sampleEnv.locale_to_utf (normalizeDir "Music".toList) ≠ ['/']
          then [(⟨.directory ['.', '.'], false, false⟩ : Row)] else []) ++
        listed.map (storedRow sampleEnv) :=
  ⟨rfl, ciItemLess_strictWeakOrder Browser.init.browser_sort_mode,
    C2_remote_rows_sorted_perm sampleEnv Browser.init "Music".toList [] rfl
      (ciItemLess_strictWeakOrder Browser.init.browser_sort_mode)⟩

/-! ## C3: Enter on the parent row -/

theorem rfind_eq_none (s : Str) (c : Char) (h : c ∉ s) : rfind s c = none := by
  induction s with
  | nil => rfl
  | cons x xs ih =>
    have hx : ¬ x = c := fun e => h (e ▸ List.mem_cons_self _ _)
    have hxs : c ∉ xs := fun m => h (List.mem_cons_of_mem _ m)
    simp [rfind, ih hxs, hx]

theorem rfind_last (pre suf : Str) (c : Char) (h : c ∉ suf) :
    rfind (pre ++ c :: suf) c = some pre.length := by
  induction pre with
  | nil => simp [rfind, rfind_eq_none suf c h]
  | cons x xs ih => simp [rfind, ih]

theorem GetDirectory_itsBrowsedDir (env : Env) (b : Browser) (dir subdir : Str) :
    (GetDirectory env b dir subdir).itsBrowsedDir = normalizeDir dir := rfl

theorem isParentDirectory_eq (item : Item) (h : isParentDirectory item = true) :
    item = .directory ['.', '.'] := by
  cases item <;> simp_all [isParentDirectory, Item.type, Item.name]

/-- C3. `EnterPressed` with the cursor on the parent row: when the current path
contains a '/', the new current path is what stands before its last '/', or "/" when
nothing stands there; when it contains none, the new current path is "/". -/
theorem C3_enter_on_parent_row (env : Env) (b : Browser) (row : Row)
    (hcur : b.w.current = some row) (hparent : isParentDirectory row.value = true) :
    (∀ pre suf : Str, b.itsBrowsedDir = pre ++ '/' :: suf → '/' ∉ suf →
      (EnterPressed env b).itsBrowsedDir = if pre = [] then ['/'] else pre) ∧
    ('/' ∉ b.itsBrowsedDir → (EnterPressed env b).itsBrowsedDir = ['/']) := by
  have hval := isParentDirectory_eq row.value hparent
  have hne : b.w.empty = false := by
    unfold Menu.current at hcur
    unfold Menu.empty
    cases hr : b.w.rows with
    | nil => simp [hr] at hcur
    | cons x xs => rfl
  constructor
  · intro pre suf hdir hsuf
    have hr := rfind_last pre suf '/' hsuf
    rw [← hdir] at hr
    simp only [EnterPressed, hne, hcur, hval, hr, isParentDirectory, Item.type, Item.name,
      GetDirectory_itsBrowsedDir, normalizeDir]
    simp [hdir]
    cases pre <;> simp [GetDirectory_itsBrowsedDir, normalizeDir]
  · intro hno
    have hr := rfind_eq_none b.itsBrowsedDir '/' hno
    simp only [EnterPressed, hne, hcur, hval, hr, isParentDirectory, Item.type, Item.name,
      GetDirectory_itsBrowsedDir, normalizeDir]
    simp [GetDirectory_itsBrowsedDir, normalizeDir]

/-- C3 at a concrete input: at "/a/b", Enter on the parent row leads to "/a". -/
theorem C3_enter_on_parent_row_witness :
    (GetDirectory sampleEnv Browser.init "/a/b".toList []).w.current =
      some ⟨.directory ['.', '.'], false, false⟩ ∧
    (EnterPressed sampleEnv (GetDirectory sampleEnv Browser.init "/a/b".toList [])).itsBrowsedDir
      = "/a".toList := by
  have h := C3_enter_on_parent_row sampleEnv
    (GetDirectory sampleEnv Browser.init "/a/b".toList []) ⟨.directory ['.', '.'], false, false⟩
    (by decide) (by decide)
  refine ⟨by decide, ?_⟩
  have h1 := h.1 "/a".toList "b".toList (by decide) (by decide)
  simpa using h1

/-! ## C4: the songs of the selection -/

/-- C4 evaluated at its failing input: with the empty directory "empty" selected and
the cursor on an unselected song, `getSelectedSongs` returns that song, although the
selected row expands to nothing. -/
theorem C4_empty_selection_falls_back_to_cursor :
    (selectionState.w.rows.map Row.isSelected = [true, false]) ∧
    sampleEnv.GetDirectoryRecursive "empty".toList = [] ∧
    getSelectedSongs sampleEnv selectionState = [⟨"a.mp3".toList, ['/'], 5, true⟩] := by
  decide

/-! ## C5: the current path -/

/-- C5 fails as stated.  From the initial state, listing the database root and
pressing Enter on its first row, the directory "Music" the database returned, makes
"Music" the current path: paths of the database carry no leading '/'. -/
theorem C5_leading_slash_counterexample :
    ¬ (runOps [(sampleEnv, .getDirectory ['/'] []), (sampleEnv, .enterPressed)]
        Browser.init).itsBrowsedDir.head? = some '/' := by
  decide

theorem normalizeDir_ne_nil (dir : Str) : normalizeDir dir ≠ [] := by
  unfold normalizeDir
  cases dir <;> simp

theorem GetDirectory_dir_ne_nil (env : Env) (b : Browser) (dir subdir : Str) :
    (GetDirectory env b dir subdir).itsBrowsedDir ≠ [] :=
  normalizeDir_ne_nil dir

theorem ChangeBrowseMode_dir_ne_nil (env : Env) (b : Browser) (h : b.itsBrowsedDir ≠ []) :
    (ChangeBrowseMode env b).itsBrowsedDir ≠ [] := by
  unfold ChangeBrowseMode
  split_ifs
  · exact h
  · exact normalizeDir_ne_nil _

theorem UpdateItemList_itsBrowsedDir (env : Env) (b : Browser) :
    (UpdateItemList env b).itsBrowsedDir = b.itsBrowsedDir := rfl

theorem SwitchTo_dir_ne_nil (env : Env) (b : Browser) (h : b.itsBrowsedDir ≠ []) :
    (SwitchTo env b).itsBrowsedDir ≠ [] := by
  unfold SwitchTo
  simp only []
  generalize hb1 : (if b.myScreenIsThis then ChangeBrowseMode env b else b) = b1
  have h1 : b1.itsBrowsedDir ≠ [] := by
    rw [← hb1]
    split_ifs
    · exact ChangeBrowseMode_dir_ne_nil env b h
    · exact h
  generalize hb2 : (if !b1.isInitialized then Init b1 else b1) = b2
  have h2 : b2.itsBrowsedDir ≠ [] := by
    rw [← hb2]
    split_ifs
    · exact h1
    · exact h1
  generalize hb3 : (if b2.isLocal && b2.browser_sort_mode = .smMTime
      then { b2 with browser_sort_mode := SortMode.smName } else b2) = b3
  have h3 : b3.itsBrowsedDir ≠ [] := by
    rw [← hb3]
    split_ifs
    · exact h2
    · exact h2
  show (if b3.w.empty then GetDirectory env b3 b3.itsBrowsedDir []
      else UpdateItemList env b3).itsBrowsedDir ≠ []
  split_ifs
  · exact normalizeDir_ne_nil _
  · exact h3

theorem EnterPressed_dir_ne_nil (env : Env) (b : Browser) (h : b.itsBrowsedDir ≠ []) :
    (EnterPressed env b).itsBrowsedDir ≠ [] := by
  unfold EnterPressed
  split_ifs
  · exact h
  · split
    · exact h
    · split
      · simp only []
        split_ifs
        · split <;> exact GetDirectory_dir_ne_nil _ _ _ _
        · exact GetDirectory_dir_ne_nil _ _ _ _
      · exact h
      · exact h

theorem LocateSong_highlight_itsBrowsedDir (s : Song) (b : Browser) :
    (LocateSong_highlight s b).itsBrowsedDir = b.itsBrowsedDir := by
  unfold LocateSong_highlight
  split <;> rfl

theorem LocateSong_dir_ne_nil (env : Env) (b : Browser) (s : Song) (h : b.itsBrowsedDir ≠ []) :
    (LocateSong env b s).itsBrowsedDir ≠ [] := by
  unfold LocateSong
  split_ifs with h1
  · exact h
  · simp only [LocateSong_highlight_itsBrowsedDir]
    split_ifs <;>
      first
      | exact GetDirectory_dir_ne_nil _ _ _ _
      | exact SwitchTo_dir_ne_nil env _ h
      | exact h

theorem Op_run_dir_ne_nil (env : Env) (b : Browser) (op : Op) (h : b.itsBrowsedDir ≠ []) :
    (op.run env b).itsBrowsedDir ≠ [] := by
  cases op with
  | getDirectory dir subdir => exact GetDirectory_dir_ne_nil _ _ _ _
  | enterPressed => exact EnterPressed_dir_ne_nil env b h
  | changeBrowseMode => exact ChangeBrowseMode_dir_ne_nil env b h
  | locateSong s => exact LocateSong_dir_ne_nil env b s h

theorem runOps_dir_ne_nil (ops : List (Env × Op)) (b : Browser) (h : b.itsBrowsedDir ≠ []) :
    (runOps ops b).itsBrowsedDir ≠ [] := by
  induction ops generalizing b with
  | nil => exact h
  | cons x rest ih => exact ih _ (Op_run_dir_ne_nil x.1 b x.2 h)

/-- C5, amended.  In every state reached from the initial state by a sequence of
`GetDirectory`, `EnterPressed`, `ChangeBrowseMode` and `LocateSong` calls, whatever
the backends answer, the current path is not empty: an empty path is read as "/".
A leading '/' is not promised. -/
theorem C5_current_path_never_empty (ops : List (Env × Op)) :
    (runOps ops Browser.init).itsBrowsedDir ≠ [] :=
  runOps_dir_ne_nil ops Browser.init (by decide)

/-! ## C6: bold rows and the queue -/

theorem inPlaylist_iff (env : Env) (s : Song) :
    inPlaylist env s = true ↔ ∃ p ∈ env.playlistItems, p.hash = s.hash := by
  simp [inPlaylist, List.any_eq_true]

theorem GetDirectory_sorted_eq (env : Env) (b : Browser) (dir : Str) :
    GetDirectory_sorted env b dir =
      if b.isLocal then
        GetLocalDirectory env { b with itsBrowsedDir := normalizeDir dir } [] [] false
      else
        env.stdsort.sort (env.CaseInsensitiveSorting b.browser_sort_mode)
          (env.GetDirectory (env.locale_to_utf (normalizeDir dir))) := by
  unfold GetDirectory_sorted GetDirectory_fetch GetLocalDirectory Browser.isLocal
  cases hl : b.itsBrowseLocally <;> simp [hl]

/-- C6. Right after `GetDirectory` the rows are the parent row, if any, and one row
for every item of the fetched list (sorted when the database is browsed); a song row
is bold exactly when the queue holds a song with the hash of the row's song, and the
rows of directories and playlists are not bold.  `UpdateItemList` keeps every row of
the listing in its place, with its item and its selection; after it a song row is
bold exactly when the queue holds a song with that hash, and the other rows keep the
flag they had. -/
theorem C6_bold_iff_in_queue (env : Env) (b : Browser) (dir subdir : Str) :
    ((GetDirectory env b dir subdir).w.rows.map Row.value =
      (if env.locale_to_utf (normalizeDir dir) ≠ ['/'] then [Item.directory ['.', '.']]
        else []) ++
      (if b.isLocal then
          GetLocalDirectory env { b with itsBrowsedDir := normalizeDir dir } [] [] false
        else
          env.stdsort.sort (env.CaseInsensitiveSorting b.browser_sort_mode)
            (env.GetDirectory (env.locale_to_utf (normalizeDir dir)))).map (storedItem env)) ∧
    (∀ r ∈ (GetDirectory env b dir subdir).w.rows,
      (∀ s, r.value = .song s →
        (r.isBold = true ↔ ∃ p ∈ env.playlistItems, p.hash = s.hash)) ∧
      (r.value.type ≠ .itSong → r.isBold = false)) ∧
    List.Forall₂
      (fun r r' => r'.value = r.value ∧ r'.isSelected = r.isSelected ∧
        (∀ s, r.value = .song s →
          (r'.isBold = true ↔ ∃ p ∈ env.playlistItems, p.hash = s.hash)) ∧
        (r.value.type ≠ .itSong → r'.isBold = r.isBold))
      b.w.rows (UpdateItemList env b).w.rows ∧
    (UpdateItemList env b).w.choice = b.w.choice ∧
    (∀ r ∈ (UpdateItemList env b).w.rows, ∀ s, r.value = .song s →
      (r.isBold = true ↔ ∃ p ∈ env.playlistItems, p.hash = s.hash)) := by
  refine ⟨?_, ?_, ?_, rfl, ?_⟩
  · rw [GetDirectory_rows, ← GetDirectory_sorted_eq]
    simp only [List.map_append, List.map_map, Function.comp_def, storedRow_value]
    split_ifs <;> rfl
  · intro r hr
    rw [GetDirectory_rows, List.mem_append] at hr
    rcases hr with hr | hr
    · split_ifs at hr
      · rw [List.mem_singleton] at hr
        subst hr
        exact ⟨fun s hs => (nomatch hs), fun _ => rfl⟩
      · cases hr
    · rw [List.mem_map] at hr
      obtain ⟨it, _, rfl⟩ := hr
      cases it with
      | directory n => exact ⟨fun s hs => (nomatch hs), fun _ => rfl⟩
      | playlist n => exact ⟨fun s hs => (nomatch hs), fun _ => rfl⟩
      | song t =>
        refine ⟨fun s hs => ?_, fun hne => absurd rfl hne⟩
        have hst : t = s := by
          simpa [storedRow] using hs
        subst hst
        exact inPlaylist_iff env t
  · simp only [UpdateItemList, List.forall₂_map_right_iff]
    apply List.forall₂_same.mpr
    intro r _
    obtain ⟨v, bold, sel⟩ := r
    cases v with
    | directory n => exact ⟨rfl, rfl, fun s hs => (nomatch hs), fun _ => rfl⟩
    | playlist n => exact ⟨rfl, rfl, fun s hs => (nomatch hs), fun _ => rfl⟩
    | song t =>
      refine ⟨rfl, rfl, fun s hs => ?_, fun hne => absurd rfl hne⟩
      have hst : t = s := by
        simpa using hs
      subst hst
      exact inPlaylist_iff env t
  · intro r hr s hs
    simp only [UpdateItemList, List.mem_map] at hr
    obtain ⟨r0, _, rfl⟩ := hr
    cases h0 : r0.value with
    | directory n => simp [h0] at hs
    | playlist n => simp [h0] at hs
    | song t =>
      simp only [h0] at hs ⊢
      have hst : t = s := by
        simpa using hs
      subst hst
      exact inPlaylist_iff env t

/-- C6 at a concrete input: with the song "Music/x.mp3" in the queue, the listing of
"Music" shows that song bold and nothing else, and a refresh against an empty queue
takes the flag away again without touching the rows otherwise. -/
theorem C6_bold_iff_in_queue_example :
    (GetDirectory { sampleEnv with playlistItems := [⟨"Music/x.mp3".toList, "Music".toList, 7, true⟩] }
        Browser.init "Music".toList []).w.rows.map Row.isBold = [false, false, false, true] ∧
    (UpdateItemList sampleEnv
        (GetDirectory { sampleEnv with playlistItems := [⟨"Music/x.mp3".toList, "Music".toList, 7, true⟩] }
          Browser.init "Music".toList [])).w.rows =
      (GetDirectory sampleEnv Browser.init "Music".toList []).w.rows := by
  decide

/-! ## C7: the mode switch over a connection that is no local socket -/

/-- C7. When the host name of the MPD connection does not begin with '/',
`ChangeBrowseMode` leaves the whole browser state as it was: the browse mode, the
current path and the rows are unchanged. -/
theorem C7_mode_switch_rejected (env : Env) (b : Browser)
    (hhost : env.GetHostname.head? ≠ some '/') :
    ChangeBrowseMode env b = b ∧
    (ChangeBrowseMode env b).itsBrowseLocally = b.itsBrowseLocally ∧
    (ChangeBrowseMode env b).itsBrowsedDir = b.itsBrowsedDir ∧
    (ChangeBrowseMode env b).w.rows = b.w.rows := by
  have h : ChangeBrowseMode env b = b := by
    unfold ChangeBrowseMode
    rw [if_pos hhost]
  simp [h]

/-- C7 at a concrete input: over the TCP host "localhost" the listing of "Music" and
the mode stay as they are. -/
theorem C7_mode_switch_rejected_witness :
    sampleEnv.GetHostname.head? ≠ some '/' ∧
    ChangeBrowseMode sampleEnv (GetDirectory sampleEnv Browser.init "Music".toList []) =
      GetDirectory sampleEnv Browser.init "Music".toList [] :=
  ⟨by decide, (C7_mode_switch_rejected sampleEnv _ (by decide)).1⟩

/-! ## C8: local mode and the connection -/

/-- C8 evaluated at its failing input: over the TCP host "localhost", locating a song
that is not from the database puts the browser into local mode. -/
theorem C8_locate_sets_local_mode_over_tcp :
    sampleEnv.GetHostname.head? ≠ some '/' ∧
    Browser.init.itsBrowseLocally = false ∧
    (LocateSong sampleEnv Browser.init
      ⟨"/tmp/a.mp3".toList, "/tmp".toList, 1, false⟩).itsBrowseLocally = true := by
  decide

/-! ## C9: deleting a directory -/

theorem ClearDirectory_readdir_log (env : Env) (s : DirStream) :
    ∀ (path : Str) (log : RemoveLog), ∃ t : RemoveLog,
      ClearDirectory_readdir env path s log = log ++ t ∧ t.map Prod.fst = postorder path s := by
  induction s with
  | nil => intro path log; exact ⟨[], by simp [ClearDirectory_readdir], rfl⟩
  | file n rest ih =>
    intro path log
    by_cases hd : isDotOrDotDot n = true
    · obtain ⟨t, ht, hp⟩ := ih path log
      exact ⟨t, by simp [ClearDirectory_readdir, hd, ht], by simp [postorder, hd, hp]⟩
    · obtain ⟨t, ht, hp⟩ := ih path
        (log ++ [(clearFullPath path n, env.remove log (clearFullPath path n))])
      refine ⟨(clearFullPath path n, env.remove log (clearFullPath path n)) :: t, ?_, ?_⟩
      · simp [ClearDirectory_readdir, hd, ht]
      · simp [postorder, hd, hp]
  | dir n sub rest ihs ihr =>
    intro path log
    by_cases hd : isDotOrDotDot n = true
    · obtain ⟨t, ht, hp⟩ := ihr path log
      exact ⟨t, by simp [ClearDirectory_readdir, hd, ht], by simp [postorder, hd, hp]⟩
    · obtain ⟨t1, ht1, hp1⟩ := ihs (clearFullPath path n) log
      obtain ⟨t2, ht2, hp2⟩ := ihr path
        (log ++ t1 ++ [(clearFullPath path n, env.remove (log ++ t1) (clearFullPath path n))])
      refine ⟨t1 ++ (clearFullPath path n, env.remove (log ++ t1) (clearFullPath path n)) :: t2,
        ?_, ?_⟩
      · simp only [ClearDirectory_readdir, hd, if_false, Bool.false_eq_true, ht1, ht2]
        simp
      · simp [postorder, hd, hp1, hp2]

theorem postorder_perm (s : DirStream) :
    ∀ path : Str, (postorder path s).Perm (descendants path s) := by
  induction s with
  | nil => intro path; exact List.Perm.refl _
  | file n rest ih =>
    intro path
    by_cases hd : isDotOrDotDot n = true
    · simpa [postorder, descendants, hd] using ih path
    · simpa [postorder, descendants, hd] using ih path
  | dir n sub rest ihs ihr =>
    intro path
    by_cases hd : isDotOrDotDot n = true
    · simpa [postorder, descendants, hd] using ihr path
    · simp only [postorder, descendants, hd, if_false, Bool.false_eq_true]
      exact List.perm_middle.trans
        (List.Perm.cons _ ((ihs (clearFullPath path n)).append (ihr path)))

theorem postorder_block (s : DirStream) :
    ∀ (path d : Str) (sub : DirStream), (d, sub) ∈ subdirectories path s →
      ∃ before after, postorder path s = before ++ postorder d sub ++ d :: after := by
  induction s with
  | nil => intro path d sub h; simp [subdirectories] at h
  | file n rest ih =>
    intro path d sub h
    simp only [subdirectories] at h
    obtain ⟨before, after, he⟩ := ih path d sub h
    by_cases hd : isDotOrDotDot n = true
    · exact ⟨before, after, by simp [postorder, hd, he]⟩
    · exact ⟨clearFullPath path n :: before, after, by simp [postorder, hd, he]⟩
  | dir n sub0 rest ihs ihr =>
    intro path d sub h
    by_cases hd : isDotOrDotDot n = true
    · simp only [subdirectories, hd, if_true] at h
      obtain ⟨before, after, he⟩ := ihr path d sub h
      exact ⟨before, after, by simp [postorder, hd, he]⟩
    · simp only [subdirectories, hd, if_false, Bool.false_eq_true, List.mem_cons,
        List.mem_append, Prod.mk.injEq] at h
      rcases h with ⟨rfl, rfl⟩ | h | h
      · exact ⟨[], postorder path rest, by simp [postorder, hd]⟩
      · obtain ⟨before, after, he⟩ := ihs (clearFullPath path n) d sub h
        exact ⟨before, after ++ clearFullPath path n :: postorder path rest,
          by simp [postorder, hd, he]⟩
      · obtain ⟨before, after, he⟩ := ihr path d sub h
        exact ⟨postorder (clearFullPath path n) sub0 ++ clearFullPath path n :: before, after,
          by simp [postorder, hd, he]⟩

theorem clearFullPath_eq (path n : Str) : clearFullPath path n = clearBase path ++ n := rfl

theorem clearBase_length (path : Str) : path.length ≤ (clearBase path).length := by
  unfold clearBase
  split_ifs <;> simp

theorem clearBase_of_name (base n : Str) (hne : n ≠ []) (hslash : '/' ∉ n) :
    clearBase (base ++ n) = base ++ n ++ ['/'] := by
  unfold clearBase
  have hlast : (base ++ n).getLast? ≠ some '/' := by
    intro h
    have hn : (base ++ n).getLast? = n.getLast? := by
      rw [List.getLast?_append]
      cases hl : n.getLast? with
      | none => exact absurd (List.getLast?_eq_none_iff.mp hl) hne
      | some x => rfl
    rw [hn] at h
    exact hslash (List.mem_of_mem_getLast? h)
  rw [if_pos hlast]

theorem entryNames_wellFormed (s : DirStream) (h : WellFormed s) :
    ∀ m ∈ entryNames s, m ≠ [] ∧ '/' ∉ m := by
  induction s with
  | nil => intro m hm; simp [entryNames] at hm
  | file n rest ih =>
    intro m hm
    obtain ⟨h1, h2, _, h4⟩ := h
    simp only [entryNames] at hm
    split_ifs at hm
    · exact ih h4 m hm
    · rcases List.mem_cons.mp hm with rfl | hm
      · exact ⟨h1, h2⟩
      · exact ih h4 m hm
  | dir n sub rest _ ihr =>
    intro m hm
    obtain ⟨h1, h2, _, _, h5⟩ := h
    simp only [entryNames] at hm
    split_ifs at hm
    · exact ihr h5 m hm
    · rcases List.mem_cons.mp hm with rfl | hm
      · exact ⟨h1, h2⟩
      · exact ihr h5 m hm

/-- The shape of a path below a directory: the directory part, the name of one of its
entries, and then nothing or a '/' and more. -/
theorem descendants_shape (s : DirStream) :
    ∀ (path : Str), WellFormed s → ∀ q ∈ descendants path s,
      ∃ n ∈ entryNames s, ∃ tail : Str,
        q = clearBase path ++ n ++ tail ∧ (tail = [] ∨ ∃ t, tail = '/' :: t) := by
  induction s with
  | nil => intro path _ q hq; simp [descendants] at hq
  | file n rest ih =>
    intro path h q hq
    obtain ⟨_, _, _, h4⟩ := h
    by_cases hd : isDotOrDotDot n = true
    · simp only [descendants, hd, if_true] at hq
      obtain ⟨m, hm, tail, he, ht⟩ := ih path h4 q hq
      exact ⟨m, by simp [entryNames, hd, hm], tail, he, ht⟩
    · simp only [descendants, hd, if_false, Bool.false_eq_true, List.mem_cons] at hq
      rcases hq with rfl | hq
      · exact ⟨n, by simp [entryNames, hd], [], by simp [clearFullPath_eq], Or.inl rfl⟩
      · obtain ⟨m, hm, tail, he, ht⟩ := ih path h4 q hq
        exact ⟨m, by simp [entryNames, hd, hm], tail, he, ht⟩
  | dir n sub rest ihs ihr =>
    intro path h q hq
    obtain ⟨h1, h2, _, h4, h5⟩ := h
    by_cases hd : isDotOrDotDot n = true
    · simp only [descendants, hd, if_true] at hq
      obtain ⟨m, hm, tail, he, ht⟩ := ihr path h5 q hq
      exact ⟨m, by simp [entryNames, hd, hm], tail, he, ht⟩
    · simp only [descendants, hd, if_false, Bool.false_eq_true, List.mem_cons,
        List.mem_append] at hq
      rcases hq with rfl | hq | hq
      · exact ⟨n, by simp [entryNames, hd], [], by simp [clearFullPath_eq], Or.inl rfl⟩
      · obtain ⟨m, _, tail, he, _⟩ := ihs (clearFullPath path n) h4 q hq
        refine ⟨n, by simp [entryNames, hd], '/' :: (m ++ tail), ?_, Or.inr ⟨_, rfl⟩⟩
        rw [he, clearFullPath_eq, clearBase_of_name (clearBase path) n h1 h2]
        simp
      · obtain ⟨m, hm, tail, he, ht⟩ := ihr path h5 q hq
        exact ⟨m, by simp [entryNames, hd, hm], tail, he, ht⟩

theorem first_component (n : Str) :
    ∀ (m t1 t2 : Str), '/' ∉ n → '/' ∉ m → (t1 = [] ∨ ∃ t, t1 = '/' :: t) →
      (t2 = [] ∨ ∃ t, t2 = '/' :: t) → n ++ t1 = m ++ t2 → n = m := by
  induction n with
  | nil =>
    intro m t1 t2 _ hm h1 _ he
    cases m with
    | nil => rfl
    | cons y ys =>
      exfalso
      rcases h1 with rfl | ⟨t, rfl⟩
      · simp at he
      · simp only [List.nil_append, List.cons_append, List.cons.injEq] at he
        exact hm (he.1 ▸ List.mem_cons_self _ _)
  | cons x xs ih =>
    intro m t1 t2 hn hm h1 h2 he
    cases m with
    | nil =>
      exfalso
      rcases h2 with rfl | ⟨t, rfl⟩
      · simp at he
      · simp only [List.nil_append, List.cons_append, List.cons.injEq] at he
        exact hn (he.1 ▸ List.mem_cons_self _ _)
    | cons y ys =>
      simp only [List.cons_append, List.cons.injEq] at he
      have := ih ys t1 t2 (fun h => hn (List.mem_cons_of_mem _ h))
        (fun h => hm (List.mem_cons_of_mem _ h)) h1 h2 he.2
      rw [he.1, this]

theorem path_not_below_itself (s : DirStream) (path : Str) (h : WellFormed s) :
    path ∉ descendants path s := by
  intro hq
  obtain ⟨n, hn, tail, he, _⟩ := descendants_shape s path h path hq
  have hne := (entryNames_wellFormed s h n hn).1
  have hlen := congrArg List.length he
  have hb := clearBase_length path
  have hpos : 0 < n.length := List.length_pos.mpr hne
  simp only [List.length_append] at hlen
  omega

theorem name_not_in_rest (rest : DirStream) (path n : Str) (hrest : WellFormed rest)
    (hslash : '/' ∉ n) (hnot : n ∉ entryNames rest) (tail : Str)
    (ht : tail = [] ∨ ∃ t, tail = '/' :: t) :
    clearBase path ++ n ++ tail ∉ descendants path rest := by
  intro hq
  obtain ⟨m, hm, tail2, he, ht2⟩ := descendants_shape rest path hrest _ hq
  have hm2 := (entryNames_wellFormed rest hrest m hm).2
  rw [List.append_assoc, List.append_assoc, List.append_cancel_left_eq] at he
  exact hnot (first_component n m tail tail2 hslash hm2 ht ht2 he ▸ hm)

theorem descendants_nodup (s : DirStream) :
    ∀ path : Str, WellFormed s → (descendants path s).Nodup := by
  induction s with
  | nil => intro path _; simp [descendants]
  | file n rest ih =>
    intro path h
    obtain ⟨_, h2, h3, h4⟩ := h
    by_cases hd : isDotOrDotDot n = true
    · simpa [descendants, hd] using ih path h4
    · simp only [descendants, hd, if_false, Bool.false_eq_true, List.nodup_cons]
      refine ⟨?_, ih path h4⟩
      have := name_not_in_rest rest path n h4 h2 h3 [] (Or.inl rfl)
      simpa [clearFullPath_eq] using this
  | dir n sub rest ihs ihr =>
    intro path h
    obtain ⟨h1, h2, h3, h4, h5⟩ := h
    by_cases hd : isDotOrDotDot n = true
    · simpa [descendants, hd] using ihr path h5
    · simp only [descendants, hd, if_false, Bool.false_eq_true, List.nodup_cons,
        List.mem_append, not_or]
      refine ⟨⟨path_not_below_itself sub _ h4, ?_⟩, ?_⟩
      · have := name_not_in_rest rest path n h5 h2 h3 [] (Or.inl rfl)
        simpa [clearFullPath_eq] using this
      · refine List.Nodup.append (ihs _ h4) (ihr path h5) ?_
        intro q hq1 hq2
        obtain ⟨m, _, tail, he, _⟩ := descendants_shape sub _ h4 q hq1
        rw [clearFullPath_eq, clearBase_of_name (clearBase path) n h1 h2] at he
        have := name_not_in_rest rest path n h5 h2 h3 ('/' :: (m ++ tail)) (Or.inr ⟨_, rfl⟩)
        apply this
        have e : clearBase path ++ n ++ '/' :: (m ++ tail) = q := by
          rw [he]; simp
        rw [e]
        exact hq2

theorem ClearDirectory_eq_readdir (env : Env) (path : Str) (log : RemoveLog) :
    ClearDirectory env path log =
      ClearDirectory_readdir env path ((env.opendir path).getD .nil) log := by
  unfold ClearDirectory
  cases env.opendir path <;> rfl

/-- C9. `deleteItem` on a directory item other than "..", for any directory tree, any
order of enumeration and any outcome of the `remove` calls: the calls it adds to the
log end with the one on the target, whose outcome is the value returned; every path
below the target is tried exactly once; for the target and for every directory below
it, the call on the directory comes right after the calls on everything below that
directory; and in a tree as a file system holds it no path is tried twice. -/
theorem C9_delete_directory_post_order (env : Env) (b : Browser) (name : Str)
    (log0 : RemoveLog) (hname : name ≠ ['.', '.']) :
    let path := deletePath env b (.directory name)
    let tree := (env.opendir path).getD .nil
    let r := deleteItem env b (.directory name) log0
    ∃ attempts : RemoveLog,
      r.2 = log0 ++ attempts ∧
      attempts.getLast? = some (path, r.1) ∧
      (attempts.map Prod.fst).Perm (descendants path tree ++ [path]) ∧
      (∀ d sub, (d, sub) ∈ (path, tree) :: subdirectories path tree →
        ∃ before block after, attempts.map Prod.fst = before ++ block ++ d :: after ∧
          block.Perm (descendants d sub)) ∧
      (WellFormed tree → (attempts.map Prod.fst).Nodup) := by
  intro path tree r
  obtain ⟨t, ht, hp⟩ := ClearDirectory_readdir_log env tree path log0
  have hr : r = (env.remove (log0 ++ t) path,
      log0 ++ t ++ [(path, env.remove (log0 ++ t) path)]) := by
    show deleteItem env b (.directory name) log0 = _
    unfold deleteItem
    simp only [Item.type, Item.name, hname, decide_False, Bool.and_false, Bool.false_eq_true,
      if_false, decide_True, if_true, reduceCtorEq]
    rw [ClearDirectory_eq_readdir]
    show (env.remove (ClearDirectory_readdir env path tree log0) path,
      ClearDirectory_readdir env path tree log0 ++
        [(path, env.remove (ClearDirectory_readdir env path tree log0) path)]) = _
    rw [ht]
  refine ⟨t ++ [(path, env.remove (log0 ++ t) path)], ?_, ?_, ?_, ?_, ?_⟩
  · rw [hr]; simp
  · rw [hr]; simp
  · rw [List.map_append, hp]
    exact (postorder_perm tree path).append_right _
  · intro d sub hmem
    rw [List.map_append, hp]
    rcases List.mem_cons.mp hmem with heq | hmem
    · obtain ⟨hd, hs⟩ := Prod.mk.inj heq
      subst hd hs
      exact ⟨[], postorder path tree, [], by simp, postorder_perm tree path⟩
    · obtain ⟨before, after, he⟩ := postorder_block tree path d sub hmem
      exact ⟨before, postorder d sub, after ++ [path], by simp [he], postorder_perm sub d⟩
  · intro hwf
    rw [List.map_append, hp]
    have hperm : (postorder path tree ++ [path]).Perm (path :: descendants path tree) :=
      ((postorder_perm tree path).append_right _).trans (List.perm_append_singleton _ _)
    exact hperm.nodup_iff.mpr
      (List.nodup_cons.mpr ⟨path_not_below_itself tree path hwf, descendants_nodup tree path hwf⟩)

/-- C9 at a concrete input: the local directory "/music/x" holds the empty directory
"sub" and the file "a.mp3"; `remove` succeeds on "sub" and fails on the file, hence
on the directory.  The calls are "sub", "a.mp3", then "/music/x" itself, and the
value returned is the outcome of that last call, false. -/
theorem C9_delete_directory_post_order_witness :
    "/music/x".toList ≠ ['.', '.'] ∧
    deleteItem deleteEnv walkState (.directory "/music/x".toList) [] =
      (false, [("/music/x/sub".toList, true), ("/music/x/a.mp3".toList, false),
               ("/music/x".toList, false)]) ∧
    ∃ attempts : RemoveLog,
      (deleteItem deleteEnv walkState (.directory "/music/x".toList) []).2 = [] ++ attempts ∧
      attempts.getLast? = some ("/music/x".toList, false) := by
  refine ⟨by decide, by decide, ?_⟩
  obtain ⟨attempts, h1, h2, _⟩ :=
    C9_delete_directory_post_order deleteEnv walkState "/music/x".toList [] (by decide)
  exact ⟨attempts, h1, h2⟩

/-! ## C10: the recursive local walk -/

theorem sortFrom_length (env : Env) (mode : SortMode) (v : List Item)
    (h : StrictWeakOrder (env.CaseInsensitiveSorting mode)) :
    sortFrom env mode v v.length = v := by
  unfold sortFrom
  rw [List.drop_length, List.take_length]
  have hp := env.stdsort.perm (env.CaseInsensitiveSorting mode) [] h
  rw [List.perm_nil] at hp
  rw [hp, List.append_nil]

/-- C10 evaluated at its failing input.  The directory "/music/x" holds the songs
"z.mp3" and "a.mp3" and the empty directory "sub", read in that order.  Whatever
`std::sort` does, the recursive walk returns "z.mp3" before "a.mp3", although the
comparator puts "a.mp3" first: the sort on exit only covers what was appended after
the last sub-directory. -/
theorem C10_songs_before_a_subdirectory_stay_unsorted (alg : StdSort) :
    GetLocalDirectory (walkEnv alg) walkState [] "/music/x".toList true =
      [.song (localSong "/music/x/z.mp3".toList), .song (localSong "/music/x/a.mp3".toList)] ∧
    (walkEnv alg).CaseInsensitiveSorting walkState.browser_sort_mode
      (.song (localSong "/music/x/a.mp3".toList))
      (.song (localSong "/music/x/z.mp3".toList)) = true := by
  constructor
  · have hswo : StrictWeakOrder
        ((walkEnv alg).CaseInsensitiveSorting walkState.browser_sort_mode) :=
      ciItemLess_strictWeakOrder walkState.browser_sort_mode
    have hsort := sortFrom_length (walkEnv alg) walkState.browser_sort_mode
      [.song (localSong "/music/x/z.mp3".toList), .song (localSong "/music/x/a.mp3".toList)] hswo
    show sortFrom (walkEnv alg) walkState.browser_sort_mode
      (sortFrom (walkEnv alg) walkState.browser_sort_mode
        [.song (localSong "/music/x/z.mp3".toList), .song (localSong "/music/x/a.mp3".toList)]
        [Item.song (localSong "/music/x/z.mp3".toList),
          Item.song (localSong "/music/x/a.mp3".toList)].length)
      (sortFrom (walkEnv alg) walkState.browser_sort_mode
        [.song (localSong "/music/x/z.mp3".toList), .song (localSong "/music/x/a.mp3".toList)]
        [Item.song (localSong "/music/x/z.mp3".toList),
          Item.song (localSong "/music/x/a.mp3".toList)].length).length = _
    rw [hsort, hsort]
  · show ciItemLess SortMode.smName (.song (localSong "/music/x/a.mp3".toList))
      (.song (localSong "/music/x/z.mp3".toList)) = true
    decide

/-! ## Further properties of the selection, the mode switch and deletion -/

theorem item_handler_append (env : Env) (b : Browser) (result : List Song) (item : Item) :
    item_handler env b result item = result ++ item_handler env b [] item := by
  cases item <;> simp [item_handler]
  split_ifs <;> simp

theorem getSelectedSongs_rows_eq (env : Env) (b : Browser) (rows : List Row) :
    ∀ result : List Song, getSelectedSongs_rows env b rows result =
      result ++ (rows.filter (fun r => r.isSelected)).flatMap
        (fun r => item_handler env b [] r.value) := by
  induction rows with
  | nil => intro result; simp [getSelectedSongs_rows]
  | cons r rest ih =>
    intro result
    cases hs : r.isSelected
    · simp [getSelectedSongs_rows, hs, ih]
    · simp only [getSelectedSongs_rows, hs, if_true, ih, List.filter_cons_of_pos,
        List.flatMap_cons]
      rw [item_handler_append]
      simp

/-- The selected rows expand to something: `getSelectedSongs` returns the expansions
of the selected rows, in the order of the rows, and nothing else. -/
theorem getSelectedSongs_of_selection (env : Env) (b : Browser)
    (h : (b.w.rows.filter (fun r => r.isSelected)).flatMap
      (fun r => item_handler env b [] r.value) ≠ []) :
    getSelectedSongs env b =
      (b.w.rows.filter (fun r => r.isSelected)).flatMap
        (fun r => item_handler env b [] r.value) := by
  unfold getSelectedSongs
  simp only [getSelectedSongs_rows_eq, List.nil_append]
  have he : ((b.w.rows.filter (fun r => r.isSelected)).flatMap
      (fun r => item_handler env b [] r.value)).isEmpty = false := by
    cases hl : (b.w.rows.filter (fun r => r.isSelected)).flatMap
      (fun r => item_handler env b [] r.value) with
    | nil => exact absurd hl h
    | cons x xs => rfl
  simp [he]

/-- No row is selected and the cursor is on a row: `getSelectedSongs` returns the
expansion of the row under the cursor. -/
theorem getSelectedSongs_of_no_selection (env : Env) (b : Browser) (row : Row)
    (hnone : ∀ r ∈ b.w.rows, r.isSelected = false) (hcur : b.w.current = some row) :
    getSelectedSongs env b = item_handler env b [] row.value := by
  have hf : b.w.rows.filter (fun r => r.isSelected) = [] := by
    rw [List.filter_eq_nil_iff]
    intro r hr
    simp [hnone r hr]
  have hne : b.w.empty = false := by
    unfold Menu.current at hcur
    unfold Menu.empty
    cases hr : b.w.rows with
    | nil => simp [hr] at hcur
    | cons x xs => rfl
  unfold getSelectedSongs
  simp [getSelectedSongs_rows_eq, hf, hne, hcur]

/-- The selection theorem at a concrete input: the selected directory "Music" expands
to one song of the database, which is the result although the cursor is elsewhere. -/
theorem getSelectedSongs_of_selection_witness :
    getSelectedSongs
        { sampleEnv with GetDirectoryRecursive := fun _ => [⟨"Music/x.mp3".toList, "Music".toList, 7, true⟩] }
        { cursorState with w := ⟨[⟨.directory "Music".toList, false, true⟩,
            ⟨.song ⟨"a.mp3".toList, ['/'], 5, true⟩, false, false⟩], 1⟩ } =
      [⟨"Music/x.mp3".toList, "Music".toList, 7, true⟩] :=
  getSelectedSongs_of_selection _ _ (by decide)

/-- The cursor theorem at a concrete input: nothing is selected, the cursor is on the
song "a.mp3", and that song is the result. -/
theorem getSelectedSongs_of_no_selection_witness :
    getSelectedSongs sampleEnv cursorState = [⟨"a.mp3".toList, ['/'], 5, true⟩] :=
  getSelectedSongs_of_no_selection sampleEnv cursorState
    ⟨.song ⟨"a.mp3".toList, ['/'], 5, true⟩, false, false⟩ (by decide) (by decide)

/-- Over a local socket `ChangeBrowseMode` flips the browse mode; leaving local mode
the current path becomes "/", entering it the current path becomes the home directory
without its closing '/' (or "/" when nothing is left). -/
theorem ChangeBrowseMode_over_socket (env : Env) (b : Browser)
    (hhost : env.GetHostname.head? = some '/') :
    (ChangeBrowseMode env b).itsBrowseLocally = !b.itsBrowseLocally ∧
    (b.itsBrowseLocally = true → (ChangeBrowseMode env b).itsBrowsedDir = ['/']) ∧
    (b.itsBrowseLocally = false → (ChangeBrowseMode env b).itsBrowsedDir =
      normalizeDir (if env.GetHomeDirectory.getLast? = some '/'
        then env.GetHomeDirectory.dropLast else env.GetHomeDirectory)) := by
  have hne : ¬ env.GetHostname.head? ≠ some '/' := fun h => h hhost
  unfold ChangeBrowseMode
  rw [if_neg hne]
  refine ⟨rfl, ?_, ?_⟩
  · intro hl
    simp [hl, GetDirectory_itsBrowsedDir, normalizeDir]
  · intro hl
    simp [hl, GetDirectory_itsBrowsedDir]

/-- The mode switch at a concrete input: over the socket "/run/mpd/socket" the initial
state goes to local mode at "/home/user". -/
theorem ChangeBrowseMode_over_socket_witness :
    socketEnv.GetHostname.head? = some '/' ∧
    (ChangeBrowseMode socketEnv Browser.init).itsBrowseLocally = true ∧
    (ChangeBrowseMode socketEnv Browser.init).itsBrowsedDir = "/home/user".toList := by
  have h := ChangeBrowseMode_over_socket socketEnv Browser.init (by decide)
  refine ⟨by decide, h.1, ?_⟩
  rw [h.2.2 rfl]
  decide

/-- The parent row cannot be deleted: `deleteItem` returns false and calls `remove`
on nothing. -/
theorem deleteItem_parent_row (env : Env) (b : Browser) (log : RemoveLog) :
    deleteItem env b (.directory ['.', '.']) log = (false, log) := by
  simp [deleteItem, Item.type, Item.name]

/-- A song is deleted by one `remove` call on its path, whose outcome is returned. -/
theorem deleteItem_song (env : Env) (b : Browser) (s : Song) (log : RemoveLog) :
    deleteItem env b (.song s) log =
      (env.remove log (deletePath env b (.song s)),
        log ++ [(deletePath env b (.song s), env.remove log (deletePath env b (.song s)))]) := by
  simp [deleteItem, Item.type, Item.name]

theorem readdir_flat_old_size (env : Env) (mode : SortMode) (itsBrowsedDir : Str)
    (s : DirStream) : ∀ (directory : Str) (v : List Item) (old_size : Nat),
      (GetLocalDirectory_readdir env mode itsBrowsedDir directory false s v old_size).2 =
        old_size := by
  induction s with
  | nil => intro directory v old_size; rfl
  | file n rest ih =>
    intro directory v old_size
    simp only [GetLocalDirectory_readdir]
    split_ifs <;> exact ih _ _ _
  | dir n sub rest _ ihr =>
    intro directory v old_size
    simp only [GetLocalDirectory_readdir]
    split_ifs <;> first | exact ihr _ _ _ | simp at *

/-- The listing of a local directory comes out sorted: in the result of the
non-recursive `GetLocalDirectory` on an empty vector no item is less, by the
comparator, than an earlier one. -/
theorem GetLocalDirectory_flat_sorted (env : Env) (b : Browser) (directory : Str)
    (hcmp : StrictWeakOrder (env.CaseInsensitiveSorting b.browser_sort_mode)) :
    (GetLocalDirectory env b [] directory false).Pairwise
      (fun x y => env.CaseInsensitiveSorting b.browser_sort_mode y x = false) := by
  unfold GetLocalDirectory
  cases env.opendir (if directory.isEmpty then b.itsBrowsedDir else directory) with
  | none => exact List.Pairwise.nil
  | some dir =>
    simp only [GetLocalDirectory_opened, List.length_nil, readdir_flat_old_size, sortFrom,
      List.take_zero, List.drop_zero, List.nil_append]
    exact env.stdsort.sorted _ _ hcmp

/-- The sorted local listing at a concrete input: "/music/x" with the entries
"z.mp3", "a.mp3" and "sub" is listed as "a.mp3", "sub", "z.mp3". -/
theorem GetLocalDirectory_flat_sorted_witness :
    StrictWeakOrder ((walkEnv stableStdSort).CaseInsensitiveSorting walkState.browser_sort_mode) ∧
    GetLocalDirectory (walkEnv stableStdSort) walkState [] "/music/x".toList false =
      [.song (localSong "/music/x/a.mp3".toList), .directory "/music/x/sub".toList,
       .song (localSong "/music/x/z.mp3".toList)] ∧
    (GetLocalDirectory (walkEnv stableStdSort) walkState [] "/music/x".toList false).Pairwise
      (fun x y => (walkEnv stableStdSort).CaseInsensitiveSorting
        walkState.browser_sort_mode y x = false) :=
  ⟨ciItemLess_strictWeakOrder walkState.browser_sort_mode, by decide,
    GetLocalDirectory_flat_sorted (walkEnv stableStdSort) walkState "/music/x".toList
      (ciItemLess_strictWeakOrder walkState.browser_sort_mode)⟩

/-- Mode switches alone respect the connection: after any number of
`ChangeBrowseMode` calls from the initial state, in one environment, the browser is
in local mode only if the host name begins with '/'. -/
theorem ChangeBrowseMode_local_needs_socket (env : Env) (n : Nat)
    (hlocal : ((ChangeBrowseMode env)^[n] Browser.init).itsBrowseLocally = true) :
    env.GetHostname.head? = some '/' := by
  by_contra hhost
  have hid : ∀ b, ChangeBrowseMode env b = b := by
    intro b
    unfold ChangeBrowseMode
    rw [if_pos hhost]
  have hfix : ∀ k, (ChangeBrowseMode env)^[k] Browser.init = Browser.init := by
    intro k
    induction k with
    | zero => rfl
    | succ k ih => rw [Function.iterate_succ_apply', ih, hid]
  rw [hfix n] at hlocal
  exact absurd hlocal (by decide)

/-- The invariant of the mode switch at a concrete input: one call over the socket
"/run/mpd/socket" reaches local mode. -/
theorem ChangeBrowseMode_local_needs_socket_witness :
    ((ChangeBrowseMode socketEnv)^[1] Browser.init).itsBrowseLocally = true ∧
    socketEnv.GetHostname.head? = some '/' :=
  ⟨by decide, ChangeBrowseMode_local_needs_socket socketEnv 1 (by decide)⟩

end Ncmpcpp
